import Mathlib

/-!
# Category filters and the filter coordinator of `qt-models/filtermodels.cpp`

A shallow embedding of the four category filter models (suit, tag, buddy,
location), of `FilterModelBase` which they share, and of
`MultiFilterSortModel`, followed by theorems about them.

Modelling conventions

* A `QString` is a list of characters.  A C string that is `NULL` and the
  empty C string both convert to the empty `QString`, and `same_string`
  treats them alike, so both are the empty list here.  `operator<` on
  `QString` compares code units lexicographically; the model compares the
  characters lexicographically, which is the same order on strings of the
  Basic Multilingual Plane.
* `std::vector<Item> items` and the `QStringList` of the underlying
  `QStringListModel` are lists.  Reading a vector or a string list outside its
  range is undefined in the source; `itemAt` and `nameAt` then return an
  unchecked item and the empty string.  The theorems are stated on states
  where the accesses are in range.
* The global dive table, dive-site table and tag list, which the source reads
  through `for_each_dive`, `get_dive_site_by_uuid` and `g_tag_list`, are the
  fields of a `DataSet` that is passed explicitly.
* Signals (`dataChanged`, `filterFinished`) and the widget calls of
  `myInvalidate` have no effect on the state modelled and are left out.
* `tr(...)` is taken to return its argument.
* Comparison with `Qt::CaseInsensitive` compares the case-folded forms of the
  characters; the foldings are the simple case foldings of Unicode 14.0.
* The file is read as the desktop build compiles it, with `SUBSURFACE_MOBILE`
  not defined.
-/

namespace Subsurface

/-! ## Strings -/

/-- A `QString`: the sequence of its characters. -/
abbrev QString := List Char

/-- The function `QChar::isSpace`: the ASCII white space characters, NEL, the
no-break space and the Unicode separators (categories Zs, Zl, Zp). -/
def isSpace (c : Char) : Bool :=
  let n := c.toNat
  (9 ≤ n && n ≤ 13) || n = 32 || n = 0x85 || n = 0xA0 || n = 0x1680 ||
  (0x2000 ≤ n && n ≤ 0x200A) || n = 0x2028 || n = 0x2029 || n = 0x202F ||
  n = 0x205F || n = 0x3000

/-- The function `QString::trimmed`: white space removed from both ends. -/
def trimmed (s : QString) : QString :=
  ((s.dropWhile isSpace).reverse.dropWhile isSpace).reverse

/-- The call `QString::split(sep, QString::SkipEmptyParts)`. -/
def splitSkipEmpty (sep : Char) (s : QString) : List QString :=
  (s.splitOn sep).filter (fun p => !p.isEmpty)

/-- A run of code points with a case folding: for `i` a multiple of `step`
with `first + i` at most `last`, the code point `first + i` folds to
`target + i`. -/
structure FoldRange where
  first : Nat
  last : Nat
  step : Nat
  target : Nat

/-- Case folding of the code points U+0041 to U+0196. -/
def caseFoldRanges1 : List FoldRange :=
  [⟨65, 90, 1, 97⟩, ⟨181, 181, 1, 956⟩, ⟨192, 214, 1, 224⟩, ⟨216, 222, 1, 248⟩,
   ⟨256, 302, 2, 257⟩, ⟨306, 310, 2, 307⟩, ⟨313, 327, 2, 314⟩, ⟨330, 374, 2, 331⟩,
   ⟨376, 376, 1, 255⟩, ⟨377, 381, 2, 378⟩, ⟨383, 383, 1, 115⟩, ⟨385, 385, 1, 595⟩,
   ⟨386, 388, 2, 387⟩, ⟨390, 390, 1, 596⟩, ⟨391, 391, 1, 392⟩, ⟨393, 394, 1, 598⟩,
   ⟨395, 395, 1, 396⟩, ⟨398, 398, 1, 477⟩, ⟨399, 399, 1, 601⟩, ⟨400, 400, 1, 603⟩,
   ⟨401, 401, 1, 402⟩, ⟨403, 403, 1, 608⟩, ⟨404, 404, 1, 611⟩, ⟨406, 406, 1, 617⟩]

/-- Case folding of the code points U+0197 to U+01EE. -/
def caseFoldRanges2 : List FoldRange :=
  [⟨407, 407, 1, 616⟩, ⟨408, 408, 1, 409⟩, ⟨412, 412, 1, 623⟩, ⟨413, 413, 1, 626⟩,
   ⟨415, 415, 1, 629⟩, ⟨416, 420, 2, 417⟩, ⟨422, 422, 1, 640⟩, ⟨423, 423, 1, 424⟩,
   ⟨425, 425, 1, 643⟩, ⟨428, 428, 1, 429⟩, ⟨430, 430, 1, 648⟩, ⟨431, 431, 1, 432⟩,
   ⟨433, 434, 1, 650⟩, ⟨435, 437, 2, 436⟩, ⟨439, 439, 1, 658⟩, ⟨440, 440, 1, 441⟩,
   ⟨444, 444, 1, 445⟩, ⟨452, 452, 1, 454⟩, ⟨453, 453, 1, 454⟩, ⟨455, 455, 1, 457⟩,
   ⟨456, 456, 1, 457⟩, ⟨458, 458, 1, 460⟩, ⟨459, 475, 2, 460⟩, ⟨478, 494, 2, 479⟩]

/-- Case folding of the code points U+01F1 to U+038F. -/
def caseFoldRanges3 : List FoldRange :=
  [⟨497, 497, 1, 499⟩, ⟨498, 500, 2, 499⟩, ⟨502, 502, 1, 405⟩, ⟨503, 503, 1, 447⟩,
   ⟨504, 542, 2, 505⟩, ⟨544, 544, 1, 414⟩, ⟨546, 562, 2, 547⟩, ⟨570, 570, 1, 11365⟩,
   ⟨571, 571, 1, 572⟩, ⟨573, 573, 1, 410⟩, ⟨574, 574, 1, 11366⟩, ⟨577, 577, 1, 578⟩,
   ⟨579, 579, 1, 384⟩, ⟨580, 580, 1, 649⟩, ⟨581, 581, 1, 652⟩, ⟨582, 590, 2, 583⟩,
   ⟨837, 837, 1, 953⟩, ⟨880, 882, 2, 881⟩, ⟨886, 886, 1, 887⟩, ⟨895, 895, 1, 1011⟩,
   ⟨902, 902, 1, 940⟩, ⟨904, 906, 1, 941⟩, ⟨908, 908, 1, 972⟩, ⟨910, 911, 1, 973⟩]

/-- Case folding of the code points U+0391 to U+052E. -/
def caseFoldRanges4 : List FoldRange :=
  [⟨913, 929, 1, 945⟩, ⟨931, 939, 1, 963⟩, ⟨962, 962, 1, 963⟩, ⟨975, 975, 1, 983⟩,
   ⟨976, 976, 1, 946⟩, ⟨977, 977, 1, 952⟩, ⟨981, 981, 1, 966⟩, ⟨982, 982, 1, 960⟩,
   ⟨984, 1006, 2, 985⟩, ⟨1008, 1008, 1, 954⟩, ⟨1009, 1009, 1, 961⟩, ⟨1012, 1012, 1, 952⟩,
   ⟨1013, 1013, 1, 949⟩, ⟨1015, 1015, 1, 1016⟩, ⟨1017, 1017, 1, 1010⟩, ⟨1018, 1018, 1, 1019⟩,
   ⟨1021, 1023, 1, 891⟩, ⟨1024, 1039, 1, 1104⟩, ⟨1040, 1071, 1, 1072⟩, ⟨1120, 1152, 2, 1121⟩,
   ⟨1162, 1214, 2, 1163⟩, ⟨1216, 1216, 1, 1231⟩, ⟨1217, 1229, 2, 1218⟩, ⟨1232, 1326, 2, 1233⟩]

/-- Case folding of the code points U+0531 to U+1F4D. -/
def caseFoldRanges5 : List FoldRange :=
  [⟨1329, 1366, 1, 1377⟩, ⟨4256, 4293, 1, 11520⟩, ⟨4295, 4295, 1, 11559⟩,
   ⟨4301, 4301, 1, 11565⟩, ⟨5112, 5117, 1, 5104⟩, ⟨7296, 7296, 1, 1074⟩, ⟨7297, 7297, 1, 1076⟩,
   ⟨7298, 7298, 1, 1086⟩, ⟨7299, 7300, 1, 1089⟩, ⟨7301, 7301, 1, 1090⟩, ⟨7302, 7302, 1, 1098⟩,
   ⟨7303, 7303, 1, 1123⟩, ⟨7304, 7304, 1, 42571⟩, ⟨7312, 7354, 1, 4304⟩, ⟨7357, 7359, 1, 4349⟩,
   ⟨7680, 7828, 2, 7681⟩, ⟨7835, 7835, 1, 7777⟩, ⟨7838, 7838, 1, 223⟩, ⟨7840, 7934, 2, 7841⟩,
   ⟨7944, 7951, 1, 7936⟩, ⟨7960, 7965, 1, 7952⟩, ⟨7976, 7983, 1, 7968⟩, ⟨7992, 7999, 1, 7984⟩,
   ⟨8008, 8013, 1, 8000⟩]

/-- Case folding of the code points U+1F59 to U+216F. -/
def caseFoldRanges6 : List FoldRange :=
  [⟨8025, 8031, 2, 8017⟩, ⟨8040, 8047, 1, 8032⟩, ⟨8072, 8079, 1, 8064⟩, ⟨8088, 8095, 1, 8080⟩,
   ⟨8104, 8111, 1, 8096⟩, ⟨8120, 8121, 1, 8112⟩, ⟨8122, 8123, 1, 8048⟩, ⟨8124, 8124, 1, 8115⟩,
   ⟨8126, 8126, 1, 953⟩, ⟨8136, 8139, 1, 8050⟩, ⟨8140, 8140, 1, 8131⟩, ⟨8152, 8153, 1, 8144⟩,
   ⟨8154, 8155, 1, 8054⟩, ⟨8168, 8169, 1, 8160⟩, ⟨8170, 8171, 1, 8058⟩, ⟨8172, 8172, 1, 8165⟩,
   ⟨8184, 8185, 1, 8056⟩, ⟨8186, 8187, 1, 8060⟩, ⟨8188, 8188, 1, 8179⟩, ⟨8486, 8486, 1, 969⟩,
   ⟨8490, 8490, 1, 107⟩, ⟨8491, 8491, 1, 229⟩, ⟨8498, 8498, 1, 8526⟩, ⟨8544, 8559, 1, 8560⟩]

/-- Case folding of the code points U+2183 to U+A77D. -/
def caseFoldRanges7 : List FoldRange :=
  [⟨8579, 8579, 1, 8580⟩, ⟨9398, 9423, 1, 9424⟩, ⟨11264, 11311, 1, 11312⟩,
   ⟨11360, 11360, 1, 11361⟩, ⟨11362, 11362, 1, 619⟩, ⟨11363, 11363, 1, 7549⟩,
   ⟨11364, 11364, 1, 637⟩, ⟨11367, 11371, 2, 11368⟩, ⟨11373, 11373, 1, 593⟩,
   ⟨11374, 11374, 1, 625⟩, ⟨11375, 11375, 1, 592⟩, ⟨11376, 11376, 1, 594⟩,
   ⟨11378, 11378, 1, 11379⟩, ⟨11381, 11381, 1, 11382⟩, ⟨11390, 11391, 1, 575⟩,
   ⟨11392, 11490, 2, 11393⟩, ⟨11499, 11501, 2, 11500⟩, ⟨11506, 11506, 1, 11507⟩,
   ⟨42560, 42604, 2, 42561⟩, ⟨42624, 42650, 2, 42625⟩, ⟨42786, 42798, 2, 42787⟩,
   ⟨42802, 42862, 2, 42803⟩, ⟨42873, 42875, 2, 42874⟩, ⟨42877, 42877, 1, 7545⟩]

/-- Case folding of the code points U+A77E to U+FF3A. -/
def caseFoldRanges8 : List FoldRange :=
  [⟨42878, 42886, 2, 42879⟩, ⟨42891, 42891, 1, 42892⟩, ⟨42893, 42893, 1, 613⟩,
   ⟨42896, 42898, 2, 42897⟩, ⟨42902, 42920, 2, 42903⟩, ⟨42922, 42922, 1, 614⟩,
   ⟨42923, 42923, 1, 604⟩, ⟨42924, 42924, 1, 609⟩, ⟨42925, 42925, 1, 620⟩,
   ⟨42926, 42926, 1, 618⟩, ⟨42928, 42928, 1, 670⟩, ⟨42929, 42929, 1, 647⟩,
   ⟨42930, 42930, 1, 669⟩, ⟨42931, 42931, 1, 43859⟩, ⟨42932, 42946, 2, 42933⟩,
   ⟨42948, 42948, 1, 42900⟩, ⟨42949, 42949, 1, 642⟩, ⟨42950, 42950, 1, 7566⟩,
   ⟨42951, 42953, 2, 42952⟩, ⟨42960, 42960, 1, 42961⟩, ⟨42966, 42968, 2, 42967⟩,
   ⟨42997, 42997, 1, 42998⟩, ⟨43888, 43967, 1, 5024⟩, ⟨65313, 65338, 1, 65345⟩]

/-- Case folding of the code points U+10400 to U+1E921. -/
def caseFoldRanges9 : List FoldRange :=
  [⟨66560, 66599, 1, 66600⟩, ⟨66736, 66771, 1, 66776⟩, ⟨66928, 66938, 1, 66967⟩,
   ⟨66940, 66954, 1, 66979⟩, ⟨66956, 66962, 1, 66995⟩, ⟨66964, 66965, 1, 67003⟩,
   ⟨68736, 68786, 1, 68800⟩, ⟨71840, 71871, 1, 71872⟩, ⟨93760, 93791, 1, 93792⟩,
   ⟨125184, 125217, 1, 125218⟩]

/-- The simple case foldings of the Unicode character database, version 14.0
(the entries of `CaseFolding.txt` with status C or S), as runs in ascending
order.  These are the foldings `QChar::toCaseFolded` applies. -/
def caseFoldRanges : List FoldRange :=
  caseFoldRanges1 ++ caseFoldRanges2 ++ caseFoldRanges3 ++ caseFoldRanges4 ++ caseFoldRanges5 ++ caseFoldRanges6 ++ caseFoldRanges7 ++ caseFoldRanges8 ++ caseFoldRanges9

/-- The case-folded form of a code point: given by the run that holds it, the
code point itself when none does. -/
def foldCode (n : Nat) : Nat :=
  match caseFoldRanges.find?
      (fun r => decide (r.first ≤ n) && decide (n ≤ r.last) && (n - r.first) % r.step == 0) with
  | some r => r.target + (n - r.first)
  | none => n

/-- The function `QChar::toCaseFolded`. -/
def toCaseFolded (c : Char) : Char := Char.ofNat (foldCode c.toNat)

/-- Case folding of a string, character by character, as the comparisons with
`Qt::CaseInsensitive` do it. -/
def foldCase (s : QString) : QString := s.map toCaseFolded

/-- The call `QStringList::contains(s, Qt::CaseInsensitive)`. -/
def containsCaseInsensitive (l : List QString) (s : QString) : Bool :=
  l.any (fun p => foldCase p == foldCase s)

/-- Position of the first element equal to `s`, if there is one. -/
def firstIdx (s : QString) : List QString → Option Nat
  | [] => none
  | x :: xs => if x = s then some 0 else (firstIdx s xs).map (· + 1)

/-- The function `QStringList::indexOf`: the index of the first occurrence,
or `-1`. -/
def indexOf (l : List QString) (s : QString) : Int :=
  match firstIdx s l with
  | some i => (i : Int)
  | none => -1

/-- The element `list[i]` of a `QStringList`. -/
def nameAt (l : List QString) (i : Nat) : QString := l.getD i []

/-- The function `qSort` on a `QStringList`: ascending for `operator<`. -/
def qSort (l : List QString) : List QString := l.insertionSort (· ≤ ·)

/-- The function `same_string` of `core/subsurface-string.h`. -/
def same_string (a b : QString) : Bool := a == b

/-! ## The data set -/

/-- The fields of `struct dive` that the filters read, and the flag
`hidden_by_filter` that the coordinator writes. -/
structure dive where
  suit : QString
  buddy : QString
  divemaster : QString
  tag_list : List QString
  dive_site_uuid : Nat
  hidden_by_filter : Bool
  deriving DecidableEq

/-- The fields of `struct dive_site` that the filters read. -/
structure dive_site where
  uuid : Nat
  name : QString
  deriving DecidableEq

/-- The global tables read by the filters. -/
structure DataSet where
  dive_table : List dive
  dive_site_table : List dive_site
  g_tag_list : List QString
  deriving DecidableEq

/-- Modelled from the spec: `get_dive_site_by_uuid` (core/divesite.h) is not
among the sources.  It resolves a dive-site identifier to the site of the
dive-site table that carries it, and fails for an identifier no site has. -/
def get_dive_site_by_uuid (sites : List dive_site) (uuid : Nat) : Option dive_site :=
  sites.find? (fun ds => ds.uuid = uuid)

/-- Modelled from the spec: `get_dive_location` (core/dive.h) is not among the
sources.  It is the resolved location string of a dive: the name of its dive
site, empty when the dive has no site. -/
def get_dive_location (sites : List dive_site) (d : dive) : QString :=
  match get_dive_site_by_uuid sites d.dive_site_uuid with
  | some ds => ds.name
  | none => []

/-- The persons of a dive as both `BuddyFilterModel` functions compute them:
buddy and divemaster joined by a comma, split on commas without the empty
parts. -/
def personsParts (d : dive) : List QString :=
  splitSkipEmpty ',' (d.buddy ++ [','] ++ d.divemaster)

/-- Modelled from the spec: `count_dives_with_suit` (core) is not among the
sources.  It is the number of dives whose suit equals the name; for the empty
name, the number of dives with an empty suit. -/
def count_dives_with_suit (D : DataSet) (s : QString) : Int :=
  (D.dive_table.countP (fun d => same_string d.suit s) : Nat)

/-- Modelled from the spec: `count_dives_with_tag` (core) is not among the
sources.  It is the number of dives that carry a tag of that name; for the
empty name, the number of dives without tags. -/
def count_dives_with_tag (D : DataSet) (s : QString) : Int :=
  (D.dive_table.countP
    (fun d => if s.isEmpty then d.tag_list.isEmpty else d.tag_list.contains s) : Nat)

/-- Modelled from the spec: `count_dives_with_person` (core) is not among the
sources.  It is the number of dives one of whose persons is the name; for the
empty name, the number of dives without persons. -/
def count_dives_with_person (D : DataSet) (s : QString) : Int :=
  (D.dive_table.countP
    (fun d => if s.isEmpty then (personsParts d).isEmpty
              else ((personsParts d).map trimmed).contains s) : Nat)

/-- Modelled from the spec: `count_dives_with_location` (core) is not among
the sources.  It is the number of dives whose resolved location equals the
name; for the empty name, the number of dives with an empty location. -/
def count_dives_with_location (D : DataSet) (s : QString) : Int :=
  (D.dive_table.countP (fun d => same_string (get_dive_location D.dive_site_table d) s) : Nat)

/-! ## FilterModelBase -/

/-- The four classes derived from `FilterModelBase`. -/
inductive Kind where
  | Suit
  | Tag
  | Buddy
  | Location
  deriving DecidableEq

/-- The struct `FilterModelBase::Item`. -/
structure Item where
  checked : Bool
  count : Int
  deriving DecidableEq

/-- The state of a `FilterModelBase`: the string list of the underlying
`QStringListModel` and the members `items`, `anyChecked`, `negate`. -/
structure FilterModelBase where
  stringList : List QString
  items : List Item
  anyChecked : Bool
  negate : Bool
  deriving DecidableEq

/-- The constructor `FilterModelBase::FilterModelBase`. -/
def FilterModelBase.init : FilterModelBase :=
  { stringList := [], items := [], anyChecked := false, negate := false }

/-- The function `QStringListModel::rowCount`. -/
def FilterModelBase.rowCount (m : FilterModelBase) : Nat := m.stringList.length

/-- The element `items[i]`. -/
def itemAt (items : List Item) (i : Nat) : Item := items.getD i ⟨false, 0⟩

/-- The assignment `items[i].checked = b`. -/
def setChecked (items : List Item) (i : Nat) (b : Bool) : List Item :=
  items.set i { itemAt items i with checked := b }

/-- The assignment `items[i].count = c`. -/
def setCount (items : List Item) (i : Nat) (c : Int) : List Item :=
  items.set i { itemAt items i with count := c }

/-- Body of the loop of `updateList` that restores the checked state: the
state is `items` and `anyChecked`, `i` the loop index. -/
def restoreStep (oldNames : List QString) (oldItems : List Item) (newList : List QString)
    (st : List Item × Bool) (i : Nat) : List Item × Bool :=
  if (itemAt oldItems i).checked then
    if 0 ≤ indexOf newList (nameAt oldNames i) ∧
        indexOf newList (nameAt oldNames i) < (newList.length : Int) - 1 then
      (setChecked st.1 (indexOf newList (nameAt oldNames i)).toNat true, true)
    else st
  else st

/-- The loop `for (int i = 0; i < (int)oldItems.size() - 1; i++)` of
`updateList`, started on the items all unchecked. -/
def restoreChecked (oldNames : List QString) (oldItems : List Item) (newList : List QString) :
    List Item × Bool :=
  (List.range (oldItems.length - 1)).foldl (restoreStep oldNames oldItems newList)
    (List.replicate newList.length ⟨false, 0⟩, false)

/-- The step of `updateList` that carries the last entry over. -/
def restoreSentinel (oldItems : List Item) (st : List Item × Bool) : List Item × Bool :=
  if oldItems ≠ [] ∧ st.1 ≠ [] ∧ (itemAt oldItems (oldItems.length - 1)).checked then
    (setChecked st.1 (st.1.length - 1) true, true)
  else st

/-- The two steps of `updateList` that cache the counts. -/
def cacheCounts (countDives : QString → Int) (newList : List QString) (items : List Item) :
    List Item :=
  let items1 := (List.range (newList.length - 1)).foldl
    (fun its i => setCount its i (countDives (nameAt newList i))) items
  if items1 ≠ [] then setCount items1 (items1.length - 1) (countDives []) else items1

/-- The function `FilterModelBase::updateList`; `countDives` is the virtual
function of that name. -/
def FilterModelBase.updateList (countDives : QString → Int) (newList : List QString)
    (m : FilterModelBase) :
    FilterModelBase :=
  let st := restoreSentinel m.items (restoreChecked m.stringList m.items newList)
  { m with stringList := newList
           items := cacheCounts countDives newList st.1
           anyChecked := st.2 }

/-- The value of `Qt::CheckStateRole`. -/
def CheckStateRole : Nat := 10

/-- The function `FilterModelBase::setData`, on the row of the index: the
value returned and the new state.  There is no result when the row is outside
`items`, where the source writes out of bounds. -/
def FilterModelBase.setData (row : Nat) (value : Bool) (role : Nat) (m : FilterModelBase) :
    Option (Bool × FilterModelBase) :=
  if role = CheckStateRole then
    if row < m.items.length then
      let items := setChecked m.items row value
      some (true, { m with items := items, anyChecked := items.any (fun it => it.checked) })
    else none
  else some (false, m)

/-- The function `FilterModelBase::clearFilter`. -/
def FilterModelBase.clearFilter (m : FilterModelBase) : FilterModelBase :=
  { m with items := m.items.map (fun it => { it with checked := false }), anyChecked := false }

/-- The function `FilterModelBase::selectAll`. -/
def FilterModelBase.selectAll (m : FilterModelBase) : FilterModelBase :=
  { m with items := m.items.map (fun it => { it with checked := true }), anyChecked := true }

/-- The function `FilterModelBase::invertSelection`. -/
def FilterModelBase.invertSelection (m : FilterModelBase) : FilterModelBase :=
  let items := m.items.map (fun it => { it with checked := !it.checked })
  { m with items := items, anyChecked := items.any (fun it => it.checked) }

/-- The function `FilterModelBase::setNegate`. -/
def FilterModelBase.setNegate (negateParam : Bool) (m : FilterModelBase) : FilterModelBase :=
  { m with negate := negateParam }

/-! ## The four category filters -/

/-- The function `SuitsFilterModel::doFilter`. -/
def SuitsFilterModel.doFilter (m : FilterModelBase) (d : dive) : Bool :=
  if !m.anyChecked || m.rowCount == 0 then true
  else if d.suit.isEmpty then (itemAt m.items (m.rowCount - 1)).checked != m.negate
  else if (List.range (m.rowCount - 1)).any
      (fun i => (itemAt m.items i).checked && d.suit == nameAt m.stringList i) then !m.negate
  else m.negate

/-- The function `SuitsFilterModel::repopulate`. -/
def SuitsFilterModel.repopulate (D : DataSet) (m : FilterModelBase) : FilterModelBase :=
  let list := D.dive_table.foldl
    (fun (list : List QString) d =>
      if !d.suit.isEmpty && !list.contains d.suit then list ++ [d.suit] else list) []
  FilterModelBase.updateList (count_dives_with_suit D) (qSort list ++ ["No suit set".toList]) m

/-- The function `TagFilterModel::repopulate`. -/
def TagFilterModel.repopulate (D : DataSet) (m : FilterModelBase) : FilterModelBase :=
  if D.g_tag_list = [] then m
  else
    let list := D.g_tag_list.filter (fun name => count_dives_with_tag D name > 0)
    FilterModelBase.updateList (count_dives_with_tag D) (qSort list ++ ["Empty tags".toList]) m

/-- The function `TagFilterModel::doFilter`. -/
def TagFilterModel.doFilter (m : FilterModelBase) (d : dive) : Bool :=
  if !m.anyChecked || m.rowCount == 0 then true
  else if d.tag_list.isEmpty then (itemAt m.items (m.rowCount - 1)).checked != m.negate
  else if !m.stringList.isEmpty && d.tag_list.any
      (fun tagName =>
        decide (0 ≤ indexOf m.stringList.dropLast tagName) &&
        (itemAt m.items (indexOf m.stringList.dropLast tagName).toNat).checked) then !m.negate
  else m.negate

/-- The function `BuddyFilterModel::doFilter`. -/
def BuddyFilterModel.doFilter (m : FilterModelBase) (d : dive) : Bool :=
  if !m.anyChecked || m.rowCount == 0 then true
  else if ((personsParts d).map trimmed).isEmpty then
    (itemAt m.items (m.rowCount - 1)).checked != m.negate
  else if (List.range (m.rowCount - 1)).any
      (fun i => (itemAt m.items i).checked &&
        containsCaseInsensitive ((personsParts d).map trimmed) (nameAt m.stringList i)) then
    !m.negate
  else m.negate

/-- The function `BuddyFilterModel::repopulate`. -/
def BuddyFilterModel.repopulate (D : DataSet) (m : FilterModelBase) : FilterModelBase :=
  let list := D.dive_table.foldl
    (fun (list : List QString) d =>
      (personsParts d).foldl
        (fun (list : List QString) person =>
          if !list.contains (trimmed person) then list ++ [trimmed person] else list) list) []
  FilterModelBase.updateList (count_dives_with_person D) (qSort list ++ ["No buddies".toList]) m

/-- The function `LocationFilterModel::doFilter`. -/
def LocationFilterModel.doFilter (sites : List dive_site) (m : FilterModelBase) (d : dive) :
    Bool :=
  if !m.anyChecked || m.rowCount == 0 then true
  else if (get_dive_location sites d).isEmpty then
    (itemAt m.items (m.rowCount - 1)).checked != m.negate
  else if (List.range (m.rowCount - 1)).any
      (fun i => (itemAt m.items i).checked &&
        get_dive_location sites d == nameAt m.stringList i) then !m.negate
  else m.negate

/-- The function `LocationFilterModel::repopulate`. -/
def LocationFilterModel.repopulate (D : DataSet) (m : FilterModelBase) : FilterModelBase :=
  let list := D.dive_table.foldl
    (fun (list : List QString) d =>
      if !(get_dive_location D.dive_site_table d).isEmpty &&
          !list.contains (get_dive_location D.dive_site_table d)
      then list ++ [get_dive_location D.dive_site_table d] else list) []
  FilterModelBase.updateList (count_dives_with_location D) (qSort list ++ ["No location set".toList]) m

/-- The function `LocationFilterModel::changeName`. -/
def LocationFilterModel.changeName (oldName newName : QString) (m : FilterModelBase) :
    FilterModelBase :=
  if oldName.isEmpty || newName.isEmpty || oldName == newName then m
  else if indexOf m.stringList oldName < 0 then m
  else
    let oldIndex := (indexOf m.stringList oldName).toNat
    let newIndex := indexOf m.stringList newName
    let list := m.stringList.set oldIndex newName
    let items :=
      if 0 ≤ newIndex ∧ (itemAt m.items oldIndex).checked then
        setChecked m.items newIndex.toNat true
      else m.items
    { m with stringList := list, items := items }

/-- The function `LocationFilterModel::addName`. -/
def LocationFilterModel.addName (newName : QString) (m : FilterModelBase) : FilterModelBase :=
  if !m.anyChecked || newName.isEmpty || decide (0 ≤ indexOf m.stringList newName) then m
  else { m with stringList := newName :: m.stringList, items := ⟨true, 0⟩ :: m.items }

/-- The virtual function `doFilter` of the class of kind `k`. -/
def doFilter (k : Kind) (sites : List dive_site) (m : FilterModelBase) (d : dive) : Bool :=
  match k with
  | .Suit => SuitsFilterModel.doFilter m d
  | .Tag => TagFilterModel.doFilter m d
  | .Buddy => BuddyFilterModel.doFilter m d
  | .Location => LocationFilterModel.doFilter sites m d

/-- The virtual function `repopulate` of the class of kind `k`. -/
def repopulate (k : Kind) (D : DataSet) (m : FilterModelBase) : FilterModelBase :=
  match k with
  | .Suit => SuitsFilterModel.repopulate D m
  | .Tag => TagFilterModel.repopulate D m
  | .Buddy => BuddyFilterModel.repopulate D m
  | .Location => LocationFilterModel.repopulate D m

/-! ## Reachable filter states -/

/-- The calls that change a category filter. -/
inductive Op where
  | repopulate (D : DataSet)
  | setData (row : Nat) (value : Bool) (role : Nat)
  | clearFilter
  | selectAll
  | invertSelection
  | setNegate (negateParam : Bool)
  | changeName (oldName newName : QString)
  | addName (newName : QString)
  deriving DecidableEq

/-- One call on a filter of kind `k`.  There is no result for `setData` on a
row outside the items, nor for `changeName` and `addName` on a filter that is
not the location filter, which alone has them. -/
def step (k : Kind) (op : Op) (m : FilterModelBase) : Option FilterModelBase :=
  match op with
  | .repopulate D => some (repopulate k D m)
  | .setData row value role => (m.setData row value role).map Prod.snd
  | .clearFilter => some m.clearFilter
  | .selectAll => some m.selectAll
  | .invertSelection => some m.invertSelection
  | .setNegate b => some (m.setNegate b)
  | .changeName o n => if k = .Location then some (LocationFilterModel.changeName o n m) else none
  | .addName n => if k = .Location then some (LocationFilterModel.addName n m) else none

/-- The states a filter of kind `k` reaches from its construction. -/
inductive Reachable (k : Kind) : FilterModelBase → Prop where
  | init : Reachable k FilterModelBase.init
  | step (op : Op) (m m' : FilterModelBase) :
      Reachable k m → step k op m = some m' → Reachable k m'

/-! ## MultiFilterSortModel -/

/-- The state of the `MultiFilterSortModel`: `models` holds, for each
registered filter model in order, its class and its current state. -/
structure MultiFilterSortModel where
  divesDisplayed : Int
  curr_dive_site : Option dive_site
  models : List (Kind × FilterModelBase)
  deriving DecidableEq

/-- The constructor `MultiFilterSortModel::MultiFilterSortModel`. -/
def MultiFilterSortModel.init : MultiFilterSortModel :=
  { divesDisplayed := 0, curr_dive_site := none, models := [] }

/-- The function `MultiFilterSortModel::showDive`. -/
def MultiFilterSortModel.showDive (sites : List dive_site) (c : MultiFilterSortModel)
    (d : dive) : Bool :=
  match c.curr_dive_site with
  | some curr =>
    match get_dive_site_by_uuid sites d.dive_site_uuid with
    | none => false
    | some ds => same_string ds.name curr.name || ds.uuid == curr.uuid
  | none =>
    if c.models.isEmpty then true
    else c.models.all (fun km => doFilter km.1 sites km.2 d)

/-- Modelled from the spec: `filter_dive` (core) is not among the sources.  It
marks the visibility of the dive. -/
def filter_dive (d : dive) (shown : Bool) : dive :=
  { d with hidden_by_filter := !shown }

/-- The function `MultiFilterSortModel::myInvalidate` of the desktop build
(`SUBSURFACE_MOBILE` not defined): the dive table with the visibility marked
and the coordinator with the new `divesDisplayed`. -/
def MultiFilterSortModel.myInvalidate (D : DataSet) (c : MultiFilterSortModel) :
    DataSet × MultiFilterSortModel :=
  let r := D.dive_table.foldl
    (fun (acc : List dive × Int) d =>
      let shown := c.showDive D.dive_site_table d
      (acc.1 ++ [filter_dive d shown], if shown then acc.2 + 1 else acc.2))
    ([], 0)
  ({ D with dive_table := r.1 }, { c with divesDisplayed := r.2 })

/-- The function `MultiFilterSortModel::addFilterModel`. -/
def MultiFilterSortModel.addFilterModel (k : Kind) (m : FilterModelBase)
    (c : MultiFilterSortModel) : MultiFilterSortModel :=
  { c with models := c.models ++ [(k, m)] }

/-- The function `MultiFilterSortModel::clearFilter`. -/
def MultiFilterSortModel.clearFilter (D : DataSet) (c : MultiFilterSortModel) :
    DataSet × MultiFilterSortModel :=
  MultiFilterSortModel.myInvalidate D
    { c with models := c.models.map (fun km => (km.1, km.2.clearFilter)) }

/-- The function `MultiFilterSortModel::startFilterDiveSite`. -/
def MultiFilterSortModel.startFilterDiveSite (D : DataSet) (uuid : Nat)
    (c : MultiFilterSortModel) : DataSet × MultiFilterSortModel :=
  MultiFilterSortModel.myInvalidate D
    { c with curr_dive_site := get_dive_site_by_uuid D.dive_site_table uuid }

/-- The function `MultiFilterSortModel::stopFilterDiveSite`. -/
def MultiFilterSortModel.stopFilterDiveSite (D : DataSet) (c : MultiFilterSortModel) :
    DataSet × MultiFilterSortModel :=
  MultiFilterSortModel.myInvalidate D { c with curr_dive_site := none }

/-! ## Example data -/

/-- A dive with the given suit and nothing else. -/
def suitDive (suit : String) : dive :=
  { suit := suit.toList, buddy := [], divemaster := [], tag_list := [], dive_site_uuid := 0,
    hidden_by_filter := false }

/-- Three dives with the suits "Wetsuit", "Wetsuit" and none. -/
def wetsuitData : DataSet :=
  { dive_table := [suitDive "Wetsuit", suitDive "Wetsuit", suitDive ""],
    dive_site_table := [], g_tag_list := [] }

/-- A dive on the site "Reef" with a suit, two buddies and two tags. -/
def reefDive : dive :=
  { suit := "Wetsuit".toList, buddy := "Ann, Bob".toList, divemaster := [],
    tag_list := ["deep".toList, "night".toList], dive_site_uuid := 1,
    hidden_by_filter := false }

/-- A dive on the site "Wreck" with a suit and a divemaster, without tags. -/
def wreckDive : dive :=
  { suit := "Drysuit".toList, buddy := [], divemaster := "Carl".toList,
    tag_list := [], dive_site_uuid := 2, hidden_by_filter := false }

/-- A dive without suit, persons, tags or site. -/
def bareDive : dive :=
  { suit := [], buddy := [], divemaster := [], tag_list := [], dive_site_uuid := 0,
    hidden_by_filter := false }

/-- Two sites, two tags and the three dives above. -/
def sampleData : DataSet :=
  { dive_table := [reefDive, wreckDive, bareDive],
    dive_site_table := [⟨1, "Reef".toList⟩, ⟨2, "Wreck".toList⟩],
    g_tag_list := ["deep".toList, "night".toList] }

/-- The suit filter on `wetsuitData` after its first entry was checked. -/
def wetsuitChecked : FilterModelBase :=
  { stringList := ["Wetsuit".toList, "No suit set".toList],
    items := [⟨true, 2⟩, ⟨false, 1⟩], anyChecked := true, negate := false }

/-- A coordinator with the override on the site "Reef" and, registered, a
suit filter that rejects every dive with the suit "Wetsuit". -/
def reefOverride : MultiFilterSortModel :=
  { divesDisplayed := 0, curr_dive_site := some ⟨1, "Reef".toList⟩,
    models := [(.Suit, wetsuitChecked.setNegate true)] }

/-- The tag filter on `sampleData` after its first entry was checked. -/
def tagChecked : FilterModelBase :=
  { stringList := ["deep".toList, "night".toList, "Empty tags".toList],
    items := [⟨true, 1⟩, ⟨false, 1⟩, ⟨false, 2⟩], anyChecked := true, negate := false }

/-- The tag filter on `sampleData` after its first two entries were checked. -/
def tagCheckedBoth : FilterModelBase :=
  { stringList := ["deep".toList, "night".toList, "Empty tags".toList],
    items := [⟨true, 1⟩, ⟨true, 1⟩, ⟨false, 2⟩], anyChecked := true, negate := false }

/-- The buddy filter on `sampleData` after `selectAll`. -/
def buddyAll : FilterModelBase :=
  (repopulate .Buddy sampleData FilterModelBase.init).selectAll

/-- The location filter on `sampleData` after its first entry, "Reef", was
checked. -/
def reefChecked : FilterModelBase :=
  { stringList := ["Reef".toList, "Wreck".toList, "No location set".toList],
    items := [⟨true, 1⟩, ⟨false, 1⟩, ⟨false, 1⟩], anyChecked := true, negate := false }

/-- A dive whose buddy field ends with a comma and a blank. -/
def trailingCommaDive : dive :=
  { suit := [], buddy := "Ann, ".toList, divemaster := [], tag_list := [],
    dive_site_uuid := 0, hidden_by_filter := false }

/-- A data set with that dive alone. -/
def trailingCommaData : DataSet :=
  { dive_table := [trailingCommaDive], dive_site_table := [], g_tag_list := [] }

/-- A data set with one dive and an empty global tag list. -/
def noTagData : DataSet :=
  { dive_table := [bareDive], dive_site_table := [], g_tag_list := [] }

/-- A dive with the buddies "Émile" and "Zoë". -/
def emileDive : dive :=
  { suit := [], buddy := "Émile, Zoë".toList, divemaster := [], tag_list := [],
    dive_site_uuid := 0, hidden_by_filter := false }

/-- A dive whose buddy is written in capitals between blanks. -/
def shoutDive : dive :=
  { suit := [], buddy := "  ZOË ".toList, divemaster := [], tag_list := [],
    dive_site_uuid := 0, hidden_by_filter := false }

/-- A data set with the dive `emileDive` alone. -/
def emileData : DataSet :=
  { dive_table := [emileDive], dive_site_table := [], g_tag_list := [] }

/-- The buddy filter on `emileData` after the entry "Zoë" was checked. -/
def zoeChecked : FilterModelBase :=
  { stringList := ["Zoë".toList, "Émile".toList, "No buddies".toList],
    items := [⟨true, 1⟩, ⟨false, 1⟩, ⟨false, 0⟩], anyChecked := true, negate := false }

/-! ## Predicates used in the statements -/

/-- Some entry of the filter is checked. -/
def someChecked (items : List Item) : Bool := items.any (fun it => it.checked)

/-- Names and items are in step: one item for each name. -/
def InStep (m : FilterModelBase) : Prop := m.items.length = m.stringList.length

/-- What every reachable state satisfies: names and items are in step, a
checked entry makes `anyChecked` true, and `anyChecked` is true only with a
checked entry or without entries. -/
def Consistent (m : FilterModelBase) : Prop :=
  InStep m ∧ (someChecked m.items = true → m.anyChecked = true) ∧
    (m.anyChecked = true → m.items = [] ∨ someChecked m.items = true)

/-- Old entry `i`, not the last, is checked, and its name is first found at
position `j` of the new list, before the last position. -/
def RestoredFrom (oldNames : List QString) (oldItems : List Item) (newList : List QString)
    (i j : Nat) : Prop :=
  i < oldItems.length - 1 ∧ (itemAt oldItems i).checked = true ∧
    indexOf newList (nameAt oldNames i) = (j : Int) ∧ j + 1 < newList.length

/-- The dive has no value in the category of the filter of kind `k`: an empty
suit, an empty resolved location, no tags, or a buddy and divemaster string
without a part between commas. -/
def hasNoValue (k : Kind) (sites : List dive_site) (d : dive) : Bool :=
  match k with
  | .Suit => d.suit.isEmpty
  | .Tag => d.tag_list.isEmpty
  | .Buddy => (personsParts d).isEmpty
  | .Location => (get_dive_location sites d).isEmpty

/-- The value of the dive in a single-valued category: its suit for the suit
filter, its resolved location for the location filter. -/
def singleValue (k : Kind) (sites : List dive_site) (d : dive) : Option QString :=
  match k with
  | .Suit => some d.suit
  | .Location => some (get_dive_location sites d)
  | .Tag => none
  | .Buddy => none

/-- Some entry other than the last is checked and has the name `v`. -/
def CheckedNamed (m : FilterModelBase) (v : QString) : Prop :=
  ∃ i, i + 1 < m.stringList.length ∧ (itemAt m.items i).checked = true ∧
    nameAt m.stringList i = v

/-- Some checked entry other than the last has the name of a tag of the
dive. -/
def TagMatch (m : FilterModelBase) (d : dive) : Prop :=
  ∃ i, i + 1 < m.stringList.length ∧ (itemAt m.items i).checked = true ∧
    nameAt m.stringList i ∈ d.tag_list

/-- For some tag of the dive, the first entry of that name among the entries
other than the last is checked. -/
def TagFirstMatch (m : FilterModelBase) (d : dive) : Prop :=
  ∃ t ∈ d.tag_list, ∃ i : Nat, indexOf m.stringList.dropLast t = (i : Int) ∧
    (itemAt m.items i).checked = true

/-- The loop of `BuddyFilterModel::doFilter` finds an entry: some checked entry
other than the last has the case-folded form of a trimmed person of the
dive. -/
def BuddyHit (m : FilterModelBase) (d : dive) : Prop :=
  ∃ i, i + 1 < m.stringList.length ∧ (itemAt m.items i).checked = true ∧
    ∃ p ∈ personsParts d, foldCase (trimmed p) = foldCase (nameAt m.stringList i)

/-- The list `parts` is what splitting `s` on `sep` and dropping the empty
parts yields: `s` is a sequence of segments without `sep`, joined by `sep`, and
`parts` are the segments that are not empty, in order. -/
def SplitParts (sep : Char) (s : QString) (parts : List QString) : Prop :=
  ∃ segs : List QString, segs ≠ [] ∧ (∀ seg ∈ segs, sep ∉ seg) ∧
    s = [sep].intercalate segs ∧ parts = segs.filter (fun seg => !seg.isEmpty)

/-- The string `t` is the whitespace-trimmed form of `p`: `p` is `t` between
two runs of white space, and `t` neither starts nor ends with white space. -/
def TrimmedForm (p t : QString) : Prop :=
  ∃ a b : QString, p = a ++ t ++ b ∧ (∀ c ∈ a, isSpace c = true) ∧
    (∀ c ∈ b, isSpace c = true) ∧ (∀ c, t.head? = some c → isSpace c = false) ∧
    (∀ c, t.getLast? = some c → isSpace c = false)

/-- The strings `a` and `b` are equal ignoring case: they have the same length
and at each position their characters have the same case-folded form. -/
def EqIgnoringCase (a b : QString) : Prop :=
  List.Forall₂ (fun x y => toCaseFolded x = toCaseFolded y) a b

/-- Some checked entry other than the last has a name equal, ignoring case, to
the whitespace-trimmed form of one of the parts. -/
def BuddyMatch (m : FilterModelBase) (parts : List QString) : Prop :=
  ∃ i, i + 1 < m.stringList.length ∧ (itemAt m.items i).checked = true ∧
    ∃ p ∈ parts, ∃ t, TrimmedForm p t ∧ EqIgnoringCase (nameAt m.stringList i) t

/-- Modelled from the spec: the code of the core that builds `g_tag_list` is
not among the sources.  The spec has the entries of a category be distinct
values, and the tag filter takes its names from the global tag list: the list
holds each tag name once. -/
def DistinctTagNames (D : DataSet) : Prop := D.g_tag_list.Nodup

/-- The states a filter of kind `k` reaches from its construction when every
data set it is repopulated from has distinct tag names. -/
inductive ReachableDistinct (k : Kind) : FilterModelBase → Prop where
  | init : ReachableDistinct k FilterModelBase.init
  | step (op : Op) (m m' : FilterModelBase) :
      ReachableDistinct k m → (∀ D, op = .repopulate D → DistinctTagNames D) →
      step k op m = some m' → ReachableDistinct k m'

/-! ## Lists, items and names -/

theorem itemAt_of_lt (items : List Item) (i : Nat) (h : i < items.length) :
    itemAt items i = items.get ⟨i, h⟩ := by
  simp [itemAt, List.getD, List.getElem?_eq_getElem h]

theorem itemAt_of_le (items : List Item) (i : Nat) (h : items.length ≤ i) :
    itemAt items i = ⟨false, 0⟩ := by
  simp [itemAt, List.getD, List.getElem?_eq_none h]

theorem lt_of_itemAt_checked (items : List Item) (i : Nat)
    (h : (itemAt items i).checked = true) : i < items.length := by
  by_contra hlt
  rw [itemAt_of_le items i (Nat.le_of_not_lt hlt)] at h
  exact Bool.false_ne_true h

theorem length_setChecked (items : List Item) (i : Nat) (b : Bool) :
    (setChecked items i b).length = items.length := by
  simp [setChecked]

theorem length_setCount (items : List Item) (i : Nat) (c : Int) :
    (setCount items i c).length = items.length := by
  simp [setCount]

theorem itemAt_set (items : List Item) (i j : Nat) (x : Item) :
    itemAt (items.set i x) j = if i = j ∧ i < items.length then x else itemAt items j := by
  unfold itemAt
  by_cases hij : i = j
  · subst hij
    by_cases hlt : i < items.length
    · simp [List.getD, List.getElem?_set_self, hlt]
    · have hle : items.length ≤ i := Nat.le_of_not_lt hlt
      simp [List.getD, List.getElem?_eq_none, hle, hlt]
  · simp [List.getD, List.getElem?_set_ne hij, hij]

theorem checked_setChecked (items : List Item) (i j : Nat) (b : Bool) :
    (itemAt (setChecked items i b) j).checked =
      if i = j ∧ i < items.length then b else (itemAt items j).checked := by
  unfold setChecked
  rw [itemAt_set]
  split <;> rfl

theorem count_setChecked (items : List Item) (i j : Nat) (b : Bool) :
    (itemAt (setChecked items i b) j).count = (itemAt items j).count := by
  unfold setChecked
  rw [itemAt_set]
  split
  · rename_i h
    rw [h.1]
  · rfl

theorem checked_setCount (items : List Item) (i j : Nat) (c : Int) :
    (itemAt (setCount items i c) j).checked = (itemAt items j).checked := by
  unfold setCount
  rw [itemAt_set]
  split
  · rename_i h
    rw [h.1]
  · rfl

theorem count_setCount (items : List Item) (i j : Nat) (c : Int) :
    (itemAt (setCount items i c) j).count =
      if i = j ∧ i < items.length then c else (itemAt items j).count := by
  unfold setCount
  rw [itemAt_set]
  split <;> rfl

theorem someChecked_iff (items : List Item) :
    someChecked items = true ↔ ∃ j, (itemAt items j).checked = true := by
  unfold someChecked
  rw [List.any_eq_true]
  constructor
  · rintro ⟨it, hmem, hc⟩
    obtain ⟨n, hn, rfl⟩ := List.getElem_of_mem hmem
    exact ⟨n, by rw [itemAt_of_lt items n hn]; exact hc⟩
  · rintro ⟨j, hj⟩
    have hlt := lt_of_itemAt_checked items j hj
    rw [itemAt_of_lt items j hlt] at hj
    exact ⟨items.get ⟨j, hlt⟩, List.get_mem _ _ _, hj⟩

theorem items_ext (a b : List Item) (hlen : a.length = b.length)
    (hc : ∀ j, j < a.length → (itemAt a j).checked = (itemAt b j).checked)
    (hn : ∀ j, j < a.length → (itemAt a j).count = (itemAt b j).count) : a = b := by
  apply List.ext_getElem hlen
  intro j h1 h2
  have e1 := hc j h1
  have e2 := hn j h1
  rw [itemAt_of_lt a j h1, itemAt_of_lt b j h2] at e1 e2
  simp only [List.get_eq_getElem] at e1 e2
  cases ha : a[j] with
  | mk ca na =>
    cases hb : b[j] with
    | mk cb nb =>
      rw [ha, hb] at e1 e2
      simp only at e1 e2
      rw [e1, e2]

theorem firstIdx_some (s : QString) (l : List QString) (i : Nat)
    (h : firstIdx s l = some i) :
    i < l.length ∧ nameAt l i = s ∧ ∀ j, j < i → nameAt l j ≠ s := by
  induction l generalizing i with
  | nil => simp [firstIdx] at h
  | cons x xs ih =>
    unfold firstIdx at h
    split at h
    · rename_i hx
      cases h
      exact ⟨by simp, by simp [nameAt, hx], by intro j hj; omega⟩
    · rename_i hx
      cases hf : firstIdx s xs with
      | none => simp [hf] at h
      | some i0 =>
        simp [hf] at h
        subst h
        obtain ⟨h1, h2, h3⟩ := ih i0 hf
        refine ⟨by simp; omega, by simpa [nameAt] using h2, ?_⟩
        intro j hj
        cases j with
        | zero => simpa [nameAt] using hx
        | succ j0 =>
          have := h3 j0 (by omega)
          simpa [nameAt] using this

theorem firstIdx_of_nameAt (l : List QString) (j : Nat) (hj : j < l.length) :
    ∃ i, i ≤ j ∧ firstIdx (nameAt l j) l = some i := by
  induction l generalizing j with
  | nil => simp at hj
  | cons x xs ih =>
    by_cases hx : x = nameAt (x :: xs) j
    · exact ⟨0, Nat.zero_le _, by simp [firstIdx, hx.symm]⟩
    · cases j with
      | zero => exact absurd (by simp [nameAt]) hx
      | succ j0 =>
        have hj0 : j0 < xs.length := by simpa using hj
        obtain ⟨i, hi, hf⟩ := ih j0 hj0
        have e : nameAt (x :: xs) (j0 + 1) = nameAt xs j0 := by simp [nameAt]
        refine ⟨i + 1, by omega, ?_⟩
        rw [e] at hx ⊢
        simp [firstIdx, hx, hf]

theorem indexOf_eq_coe (l : List QString) (s : QString) (j : Nat) :
    indexOf l s = (j : Int) ↔ firstIdx s l = some j := by
  unfold indexOf
  cases h : firstIdx s l with
  | none => simp
  | some i => simp

theorem indexOf_nonneg (l : List QString) (s : QString) (h : 0 ≤ indexOf l s) :
    firstIdx s l = some (indexOf l s).toNat := by
  unfold indexOf at h ⊢
  cases hf : firstIdx s l with
  | none => simp [hf] at h
  | some i => simp

theorem indexOf_neg (l : List QString) (s : QString) (h : ¬ 0 ≤ indexOf l s) :
    firstIdx s l = none := by
  unfold indexOf at h
  cases hf : firstIdx s l with
  | none => rfl
  | some i =>
    rw [hf] at h
    exact absurd (Int.ofNat_nonneg i) h

theorem indexOf_nameAt_self (l : List QString) (s : QString) (j : Nat)
    (h : indexOf l s = (j : Int)) : indexOf l (nameAt l j) = (j : Int) := by
  have hf := (indexOf_eq_coe l s j).1 h
  rw [(firstIdx_some s l j hf).2.1]
  exact h

/-! ## updateList -/

theorem restoreStep_spec (oldNames : List QString) (oldItems : List Item)
    (newList : List QString) (st : List Item × Bool) (i : Nat)
    (hlen : st.1.length = newList.length) :
    (restoreStep oldNames oldItems newList st i).1.length = newList.length ∧
    (∀ j, (itemAt (restoreStep oldNames oldItems newList st i).1 j).checked = true ↔
      ((itemAt st.1 j).checked = true ∨
        ((itemAt oldItems i).checked = true ∧
          indexOf newList (nameAt oldNames i) = (j : Int) ∧ j + 1 < newList.length))) ∧
    (∀ j, (itemAt (restoreStep oldNames oldItems newList st i).1 j).count =
      (itemAt st.1 j).count) ∧
    ((restoreStep oldNames oldItems newList st i).2 = true ↔
      (st.2 = true ∨ ∃ j : Nat, (itemAt oldItems i).checked = true ∧
          indexOf newList (nameAt oldNames i) = (j : Int) ∧ j + 1 < newList.length)) := by
  unfold restoreStep
  by_cases hc : (itemAt oldItems i).checked = true
  · by_cases hr : 0 ≤ indexOf newList (nameAt oldNames i) ∧
        indexOf newList (nameAt oldNames i) < (newList.length : Int) - 1
    · rw [if_pos hc, if_pos hr]
      have hnat : indexOf newList (nameAt oldNames i) =
          ((indexOf newList (nameAt oldNames i)).toNat : Int) := (Int.toNat_of_nonneg hr.1).symm
      have hlt : (indexOf newList (nameAt oldNames i)).toNat + 1 < newList.length := by omega
      refine ⟨by simp [length_setChecked, hlen], ?_, ?_, ?_⟩
      · intro j
        rw [checked_setChecked]
        constructor
        · intro h
          split at h
          · rename_i hj
            right
            refine ⟨hc, ?_, by omega⟩
            rw [← hj.1]
            exact hnat
          · left
            exact h
        · intro h
          split
          · rfl
          · rename_i hj
            rcases h with h | ⟨_, h2, h3⟩
            · exact h
            · exfalso
              apply hj
              constructor
              · omega
              · omega
      · intro j
        rw [count_setChecked]
      · simp only [true_iff]
        right
        exact ⟨_, hc, hnat, hlt⟩
    · rw [if_pos hc, if_neg hr]
      refine ⟨hlen, ?_, fun _ => rfl, ?_⟩
      · intro j
        constructor
        · intro h
          exact Or.inl h
        · rintro (h | ⟨_, h2, h3⟩)
          · exact h
          · exfalso
            apply hr
            omega
      · constructor
        · intro h
          exact Or.inl h
        · rintro (h | ⟨j, _, h2, h3⟩)
          · exact h
          · exfalso
            apply hr
            omega
  · rw [if_neg hc]
    refine ⟨hlen, ?_, fun _ => rfl, ?_⟩
    · intro j
      constructor
      · intro h
        exact Or.inl h
      · rintro (h | ⟨h1, _⟩)
        · exact h
        · exact absurd h1 hc
    · constructor
      · intro h
        exact Or.inl h
      · rintro (h | ⟨j, h1, _⟩)
        · exact h
        · exact absurd h1 hc

theorem restoreFold_spec (oldNames : List QString) (oldItems : List Item)
    (newList : List QString) (k : Nat) (st : List Item × Bool)
    (hlen : st.1.length = newList.length) :
    ((List.range k).foldl (restoreStep oldNames oldItems newList) st).1.length =
      newList.length ∧
    (∀ j, (itemAt ((List.range k).foldl (restoreStep oldNames oldItems newList) st).1 j).checked
        = true ↔
      ((itemAt st.1 j).checked = true ∨
        ∃ i, i < k ∧ (itemAt oldItems i).checked = true ∧
          indexOf newList (nameAt oldNames i) = (j : Int) ∧ j + 1 < newList.length)) ∧
    (∀ j, (itemAt ((List.range k).foldl (restoreStep oldNames oldItems newList) st).1 j).count =
      (itemAt st.1 j).count) ∧
    (((List.range k).foldl (restoreStep oldNames oldItems newList) st).2 = true ↔
      (st.2 = true ∨ ∃ i j : Nat, i < k ∧ (itemAt oldItems i).checked = true ∧
          indexOf newList (nameAt oldNames i) = (j : Int) ∧ j + 1 < newList.length)) := by
  induction k with
  | zero =>
    have e : (List.range 0).foldl (restoreStep oldNames oldItems newList) st = st := rfl
    rw [e]
    refine ⟨hlen, ?_, fun _ => rfl, ?_⟩
    · intro j
      constructor
      · exact Or.inl
      · rintro (h | ⟨i, hi, _⟩)
        · exact h
        · omega
    · constructor
      · exact Or.inl
      · rintro (h | ⟨i, j, hi, _⟩)
        · exact h
        · omega
  | succ k ih =>
    rw [List.range_succ, List.foldl_append]
    simp only [List.foldl_cons, List.foldl_nil]
    obtain ⟨ih1, ih2, ih3, ih4⟩ := ih
    obtain ⟨s1, s2, s3, s4⟩ := restoreStep_spec oldNames oldItems newList
      ((List.range k).foldl (restoreStep oldNames oldItems newList) st) k ih1
    refine ⟨s1, ?_, ?_, ?_⟩
    · intro j
      rw [s2 j, ih2 j]
      constructor
      · rintro ((h | ⟨i, hi, h⟩) | h)
        · exact Or.inl h
        · exact Or.inr ⟨i, by omega, h⟩
        · exact Or.inr ⟨k, by omega, h⟩
      · rintro (h | ⟨i, hi, h⟩)
        · exact Or.inl (Or.inl h)
        · by_cases hik : i = k
          · subst hik
            exact Or.inr h
          · exact Or.inl (Or.inr ⟨i, by omega, h⟩)
    · intro j
      rw [s3 j, ih3 j]
    · rw [s4, ih4]
      constructor
      · rintro ((h | ⟨i, j, hi, h⟩) | ⟨j, h⟩)
        · exact Or.inl h
        · exact Or.inr ⟨i, j, by omega, h⟩
        · exact Or.inr ⟨k, j, by omega, h⟩
      · rintro (h | ⟨i, j, hi, h⟩)
        · exact Or.inl (Or.inl h)
        · by_cases hik : i = k
          · subst hik
            exact Or.inr ⟨j, h⟩
          · exact Or.inl (Or.inr ⟨i, j, by omega, h⟩)

theorem itemAt_replicate (n j : Nat) :
    itemAt (List.replicate n (⟨false, 0⟩ : Item)) j = ⟨false, 0⟩ := by
  unfold itemAt
  by_cases h : j < n
  · simp [List.getD, List.getElem?_replicate, h]
  · simp [List.getD, List.getElem?_replicate, h]

theorem restoreSentinel_spec (oldItems : List Item) (st : List Item × Bool) :
    (restoreSentinel oldItems st).1.length = st.1.length ∧
    (∀ j, (itemAt (restoreSentinel oldItems st).1 j).checked = true ↔
      ((itemAt st.1 j).checked = true ∨
        (j + 1 = st.1.length ∧ oldItems ≠ [] ∧
          (itemAt oldItems (oldItems.length - 1)).checked = true))) ∧
    (∀ j, (itemAt (restoreSentinel oldItems st).1 j).count = (itemAt st.1 j).count) ∧
    ((restoreSentinel oldItems st).2 = true ↔
      (st.2 = true ∨ (st.1 ≠ [] ∧ oldItems ≠ [] ∧
          (itemAt oldItems (oldItems.length - 1)).checked = true))) := by
  unfold restoreSentinel
  by_cases hc : oldItems ≠ [] ∧ st.1 ≠ [] ∧
      (itemAt oldItems (oldItems.length - 1)).checked = true
  · rw [if_pos hc]
    have hpos : 0 < st.1.length := List.length_pos.2 hc.2.1
    refine ⟨length_setChecked _ _ _, ?_, fun j => count_setChecked _ _ _ _, ?_⟩
    · intro j
      rw [checked_setChecked]
      constructor
      · intro h
        split at h
        · rename_i hj
          exact Or.inr ⟨by omega, hc.1, hc.2.2⟩
        · exact Or.inl h
      · intro h
        split
        · rfl
        · rename_i hj
          rcases h with h | ⟨h1, _⟩
          · exact h
          · exfalso
            apply hj
            omega
    · simp only [true_iff]
      exact Or.inr ⟨hc.2.1, hc.1, hc.2.2⟩
  · rw [if_neg hc]
    refine ⟨rfl, ?_, fun _ => rfl, ?_⟩
    · intro j
      constructor
      · exact Or.inl
      · rintro (h | ⟨h1, h2, h3⟩)
        · exact h
        · exfalso
          apply hc
          refine ⟨h2, ?_, h3⟩
          intro hnil
          rw [hnil] at h1
          simp at h1
    · constructor
      · exact Or.inl
      · rintro (h | ⟨h1, h2, h3⟩)
        · exact h
        · exact absurd ⟨h2, h1, h3⟩ hc

theorem countFold_spec (countDives : QString → Int) (newList : List QString) (k : Nat)
    (items : List Item) (hk : k ≤ items.length) :
    ((List.range k).foldl
        (fun its i => setCount its i (countDives (nameAt newList i))) items).length =
      items.length ∧
    (∀ j, (itemAt ((List.range k).foldl
        (fun its i => setCount its i (countDives (nameAt newList i))) items) j).checked =
      (itemAt items j).checked) ∧
    (∀ j, (itemAt ((List.range k).foldl
        (fun its i => setCount its i (countDives (nameAt newList i))) items) j).count =
      if j < k then countDives (nameAt newList j) else (itemAt items j).count) := by
  induction k with
  | zero =>
    have e : (List.range 0).foldl
        (fun its i => setCount its i (countDives (nameAt newList i))) items = items := rfl
    rw [e]
    exact ⟨rfl, fun _ => rfl, fun j => by simp⟩
  | succ k ih =>
    rw [List.range_succ, List.foldl_append]
    simp only [List.foldl_cons, List.foldl_nil]
    obtain ⟨ih1, ih2, ih3⟩ := ih (by omega)
    refine ⟨by rw [length_setCount, ih1], ?_, ?_⟩
    · intro j
      rw [checked_setCount, ih2 j]
    · intro j
      rw [count_setCount, ih3 j, ih1]
      by_cases hjk : k = j
      · subst hjk
        simp
        omega
      · have h1 : ¬ (k = j ∧ k < items.length) := fun h => hjk h.1
        rw [if_neg h1]
        by_cases hlt : j < k
        · rw [if_pos hlt, if_pos (by omega)]
        · rw [if_neg hlt, if_neg (by omega)]

theorem cacheCounts_spec (countDives : QString → Int) (newList : List QString)
    (items : List Item) (hlen : items.length = newList.length) :
    (cacheCounts countDives newList items).length = newList.length ∧
    (∀ j, (itemAt (cacheCounts countDives newList items) j).checked =
      (itemAt items j).checked) ∧
    (∀ j, j < newList.length → (itemAt (cacheCounts countDives newList items) j).count =
      if j + 1 < newList.length then countDives (nameAt newList j) else countDives []) := by
  obtain ⟨c1, c2, c3⟩ := countFold_spec countDives newList (newList.length - 1) items
    (by omega)
  unfold cacheCounts
  simp only
  split
  · refine ⟨by rw [length_setCount, c1, hlen], ?_, ?_⟩
    · intro j
      rw [checked_setCount, c2 j]
    · intro j hj
      rw [count_setCount, c3 j, c1]
      by_cases hlast : j + 1 < newList.length
      · rw [if_pos hlast, if_neg (by omega), if_pos (by omega)]
      · rw [if_neg hlast, if_pos (by omega)]
  · rename_i hnil
    have hnil2 := not_not.1 hnil
    have h0 : newList.length = 0 := by
      rw [← hlen, ← c1, hnil2]
      rfl
    refine ⟨by rw [c1, hlen], c2, ?_⟩
    intro j hj
    omega

/-- The state after `updateList`: the new names, one item for each, the checked
flags restored by name and from the old last entry, the counts recomputed, and
`anyChecked` true exactly when a flag was restored. -/
theorem updateList_spec (countDives : QString → Int) (newList : List QString)
    (m : FilterModelBase) :
    (m.updateList countDives newList).stringList = newList ∧
    (m.updateList countDives newList).negate = m.negate ∧
    (m.updateList countDives newList).items.length = newList.length ∧
    (∀ j, (itemAt (m.updateList countDives newList).items j).checked = true ↔
      ((∃ i, RestoredFrom m.stringList m.items newList i j) ∨
        (j + 1 = newList.length ∧ m.items ≠ [] ∧
          (itemAt m.items (m.items.length - 1)).checked = true))) ∧
    (∀ j, j < newList.length → (itemAt (m.updateList countDives newList).items j).count =
      if j + 1 < newList.length then countDives (nameAt newList j) else countDives []) ∧
    ((m.updateList countDives newList).anyChecked = true ↔
      ((∃ i j, RestoredFrom m.stringList m.items newList i j) ∨
        (newList ≠ [] ∧ m.items ≠ [] ∧
          (itemAt m.items (m.items.length - 1)).checked = true))) := by
  obtain ⟨r1, r2, r3, r4⟩ := restoreFold_spec m.stringList m.items newList
    (m.items.length - 1) (List.replicate newList.length ⟨false, 0⟩, false) (by simp)
  obtain ⟨s1, s2, s3, s4⟩ := restoreSentinel_spec m.items
    (restoreChecked m.stringList m.items newList)
  have hlen : (restoreSentinel m.items (restoreChecked m.stringList m.items newList)).1.length
      = newList.length := by
    rw [s1]
    exact r1
  obtain ⟨c1, c2, c3⟩ := cacheCounts_spec countDives newList _ hlen
  have hrl : (restoreChecked m.stringList m.items newList).1.length = newList.length := r1
  refine ⟨rfl, rfl, c1, ?_, c3, ?_⟩
  · intro j
    show (itemAt (cacheCounts countDives newList
      (restoreSentinel m.items (restoreChecked m.stringList m.items newList)).1) j).checked
        = true ↔ _
    rw [c2 j, s2 j, hrl]
    have r2j := r2 j
    simp only [itemAt_replicate, Bool.false_eq_true, false_or] at r2j
    unfold restoreChecked
    rw [r2j]
    unfold RestoredFrom
    rfl
  · show (restoreSentinel m.items (restoreChecked m.stringList m.items newList)).2 = true ↔ _
    rw [s4]
    simp only [Bool.false_eq_true, false_or] at r4
    have hne : (restoreChecked m.stringList m.items newList).1 ≠ [] ↔ newList ≠ [] := by
      rw [← List.length_pos, ← List.length_pos, hrl]
    rw [hne]
    unfold restoreChecked
    rw [r4]
    unfold RestoredFrom
    rfl

theorem updateList_anyChecked (countDives : QString → Int) (newList : List QString)
    (m : FilterModelBase) :
    (m.updateList countDives newList).anyChecked =
      someChecked (m.updateList countDives newList).items := by
  obtain ⟨_, _, u3, u4, _, u6⟩ := updateList_spec countDives newList m
  rw [Bool.eq_iff_iff, u6, someChecked_iff]
  constructor
  · rintro (⟨i, j, h⟩ | ⟨h1, h2, h3⟩)
    · exact ⟨j, (u4 j).2 (Or.inl ⟨i, h⟩)⟩
    · refine ⟨newList.length - 1, (u4 _).2 (Or.inr ⟨?_, h2, h3⟩)⟩
      have := List.length_pos.2 h1
      omega
  · rintro ⟨j, hj⟩
    rcases (u4 j).1 hj with ⟨i, h⟩ | ⟨h1, h2, h3⟩
    · exact Or.inl ⟨i, j, h⟩
    · refine Or.inr ⟨?_, h2, h3⟩
      intro hnil
      rw [hnil] at h1
      simp at h1

/-! ## Reachable states are consistent -/

theorem consistent_of_any_eq (m : FilterModelBase) (hs : InStep m)
    (ha : m.anyChecked = someChecked m.items) : Consistent m :=
  ⟨hs, fun h => by rw [ha]; exact h, fun h => Or.inr (by rw [← ha]; exact h)⟩

theorem consistent_init : Consistent FilterModelBase.init :=
  consistent_of_any_eq _ rfl rfl

theorem consistent_updateList (countDives : QString → Int) (newList : List QString)
    (m : FilterModelBase) : Consistent (m.updateList countDives newList) := by
  obtain ⟨u1, _, u3, _⟩ := updateList_spec countDives newList m
  refine consistent_of_any_eq _ ?_ (updateList_anyChecked countDives newList m)
  unfold InStep
  rw [u3, u1]

theorem consistent_repopulate (k : Kind) (D : DataSet) (m : FilterModelBase)
    (h : Consistent m) : Consistent (repopulate k D m) := by
  cases k with
  | Suit => exact consistent_updateList _ _ m
  | Tag =>
    show Consistent (TagFilterModel.repopulate D m)
    unfold TagFilterModel.repopulate
    split
    · exact h
    · exact consistent_updateList _ _ m
  | Buddy => exact consistent_updateList _ _ m
  | Location => exact consistent_updateList _ _ m

theorem consistent_setData (row : Nat) (value : Bool) (role : Nat) (m : FilterModelBase)
    (r : Bool × FilterModelBase) (h : Consistent m) (hr : m.setData row value role = some r) :
    Consistent r.2 := by
  unfold FilterModelBase.setData at hr
  split at hr
  · split at hr
    · cases hr
      refine consistent_of_any_eq _ ?_ rfl
      unfold InStep
      simp only [length_setChecked]
      exact h.1
    · cases hr
  · cases hr
    exact h

theorem someChecked_map_false (items : List Item) :
    someChecked (items.map (fun it => { it with checked := false })) = false := by
  unfold someChecked
  simp

theorem someChecked_map_true (items : List Item) (h : items ≠ []) :
    someChecked (items.map (fun it => { it with checked := true })) = true := by
  cases items with
  | nil => exact absurd rfl h
  | cons x xs => simp [someChecked]

theorem consistent_clearFilter (m : FilterModelBase) (h : Consistent m) :
    Consistent m.clearFilter := by
  refine consistent_of_any_eq _ ?_ ?_
  · unfold InStep FilterModelBase.clearFilter
    simp only [List.length_map]
    exact h.1
  · exact (someChecked_map_false m.items).symm

theorem consistent_selectAll (m : FilterModelBase) (h : Consistent m) :
    Consistent m.selectAll := by
  refine ⟨?_, fun _ => rfl, ?_⟩
  · unfold InStep FilterModelBase.selectAll
    simp only [List.length_map]
    exact h.1
  · intro _
    by_cases hnil : m.items = []
    · left
      simp [FilterModelBase.selectAll, hnil]
    · right
      exact someChecked_map_true m.items hnil

theorem consistent_invertSelection (m : FilterModelBase) (h : Consistent m) :
    Consistent m.invertSelection := by
  refine consistent_of_any_eq _ ?_ rfl
  unfold InStep FilterModelBase.invertSelection
  simp only [List.length_map]
  exact h.1

theorem someChecked_setChecked_true (items : List Item) (i : Nat)
    (h : someChecked items = true) : someChecked (setChecked items i true) = true := by
  rw [someChecked_iff] at h ⊢
  obtain ⟨j, hj⟩ := h
  refine ⟨j, ?_⟩
  rw [checked_setChecked]
  split
  · rfl
  · exact hj

theorem consistent_changeName (oldName newName : QString) (m : FilterModelBase)
    (h : Consistent m) : Consistent (LocationFilterModel.changeName oldName newName m) := by
  unfold LocationFilterModel.changeName
  split
  · exact h
  · split
    · exact h
    · simp only
      split
      · rename_i hc
        have hsome : someChecked m.items = true :=
          (someChecked_iff m.items).2 ⟨_, hc.2⟩
        refine ⟨?_, fun _ => h.2.1 hsome, fun _ => Or.inr ?_⟩
        · unfold InStep
          simp only [length_setChecked, List.length_set]
          exact h.1
        · exact someChecked_setChecked_true _ _ hsome
      · refine ⟨?_, h.2.1, h.2.2⟩
        unfold InStep
        simp only [List.length_set]
        exact h.1

theorem consistent_addName (newName : QString) (m : FilterModelBase)
    (h : Consistent m) : Consistent (LocationFilterModel.addName newName m) := by
  unfold LocationFilterModel.addName
  split
  · exact h
  · rename_i hc
    simp only [Bool.or_eq_true, Bool.not_eq_true', not_or, Bool.not_eq_false] at hc
    refine ⟨?_, fun _ => hc.1.1, fun _ => Or.inr ?_⟩
    · unfold InStep
      simp only [List.length_cons]
      rw [h.1]
    · simp [someChecked]

theorem consistent_step (k : Kind) (op : Op) (m m' : FilterModelBase) (h : Consistent m)
    (hs : step k op m = some m') : Consistent m' := by
  cases op with
  | repopulate D =>
    simp only [step, Option.some.injEq] at hs
    subst hs
    exact consistent_repopulate k D m h
  | setData row value role =>
    simp only [step, Option.map_eq_some'] at hs
    obtain ⟨r, hr, rfl⟩ := hs
    exact consistent_setData row value role m r h hr
  | clearFilter =>
    simp only [step, Option.some.injEq] at hs
    subst hs
    exact consistent_clearFilter m h
  | selectAll =>
    simp only [step, Option.some.injEq] at hs
    subst hs
    exact consistent_selectAll m h
  | invertSelection =>
    simp only [step, Option.some.injEq] at hs
    subst hs
    exact consistent_invertSelection m h
  | setNegate b =>
    simp only [step, Option.some.injEq] at hs
    subst hs
    exact h
  | changeName o n =>
    simp only [step] at hs
    split at hs
    · cases hs
      exact consistent_changeName o n m h
    · cases hs
  | addName n =>
    simp only [step] at hs
    split at hs
    · cases hs
      exact consistent_addName n m h
    · cases hs

/-- Every reachable state of a category filter is consistent. -/
theorem consistent_of_reachable (k : Kind) (m : FilterModelBase) (h : Reachable k m) :
    Consistent m := by
  induction h with
  | init => exact consistent_init
  | step op m m' _ hs ih => exact consistent_step k op m m' ih hs

/-! ## doFilter -/

theorem doFilter_permissive (k : Kind) (sites : List dive_site) (m : FilterModelBase)
    (d : dive) (h : m.anyChecked = false ∨ m.stringList = []) :
    doFilter k sites m d = true := by
  have hc : (!m.anyChecked || m.rowCount == 0) = true := by
    rcases h with h | h
    · simp [h]
    · simp [FilterModelBase.rowCount, h]
  cases k
  · show SuitsFilterModel.doFilter m d = true
    unfold SuitsFilterModel.doFilter
    rw [if_pos hc]
  · show TagFilterModel.doFilter m d = true
    unfold TagFilterModel.doFilter
    rw [if_pos hc]
  · show BuddyFilterModel.doFilter m d = true
    unfold BuddyFilterModel.doFilter
    rw [if_pos hc]
  · show LocationFilterModel.doFilter sites m d = true
    unfold LocationFilterModel.doFilter
    rw [if_pos hc]

theorem guard_false (m : FilterModelBase) (ha : m.anyChecked = true)
    (hne : m.stringList ≠ []) : ¬ ((!m.anyChecked || m.rowCount == 0) = true) := by
  have hl : m.stringList.length ≠ 0 := fun h => hne (List.length_eq_zero.1 h)
  simp [ha, FilterModelBase.rowCount, hl]

/-- C1, permissive default.  In every state that a category filter of any of
the four kinds reaches, if no entry is checked or the entry list is empty, then
`doFilter` returns true for every dive, and it does so whatever `negate` is
set to. -/
theorem permissive_default (k : Kind) (m : FilterModelBase) (hr : Reachable k m)
    (h : someChecked m.items = false ∨ m.stringList = [])
    (sites : List dive_site) (d : dive) (b : Bool) :
    doFilter k sites m d = true ∧ doFilter k sites (m.setNegate b) d = true := by
  have hcons := consistent_of_reachable k m hr
  have hg : m.anyChecked = false ∨ m.stringList = [] := by
    rcases h with h | h
    · cases ha : m.anyChecked with
      | false => exact Or.inl rfl
      | true =>
        rcases hcons.2.2 ha with h0 | h1
        · right
          have hlen : m.stringList.length = 0 := by
            rw [← hcons.1, h0]
            rfl
          exact List.length_eq_zero.1 hlen
        · rw [h] at h1
          exact absurd h1 Bool.false_ne_true
    · exact Or.inr h
  exact ⟨doFilter_permissive k sites m d hg, doFilter_permissive k sites _ d hg⟩

theorem permissive_default_witness :
    doFilter .Location sampleData.dive_site_table
        ((repopulate .Location sampleData FilterModelBase.init).setNegate true) bareDive
      = true ∧
    doFilter .Location sampleData.dive_site_table
        (((repopulate .Location sampleData FilterModelBase.init).setNegate true).setNegate false)
        bareDive = true :=
  permissive_default .Location
    ((repopulate .Location sampleData FilterModelBase.init).setNegate true)
    (Reachable.step (.setNegate true) _ _
      (Reachable.step (.repopulate sampleData) _ _ Reachable.init rfl) rfl)
    (Or.inl (by decide)) sampleData.dive_site_table bareDive false

/-- C2, negate correctness.  For a reachable filter of any kind with a
non-empty entry list on which some entry is checked, and for every dive,
`doFilter` with `negate` set is the negation of `doFilter` on the same entries
with `negate` cleared. -/
theorem negate_correct (k : Kind) (m : FilterModelBase) (hr : Reachable k m)
    (hne : m.stringList ≠ []) (hc : someChecked m.items = true)
    (sites : List dive_site) (d : dive) :
    doFilter k sites (m.setNegate true) d = !doFilter k sites (m.setNegate false) d := by
  have ha : m.anyChecked = true := (consistent_of_reachable k m hr).2.1 hc
  have g1 := guard_false (m.setNegate true) ha hne
  have g2 := guard_false (m.setNegate false) ha hne
  cases k
  · show SuitsFilterModel.doFilter _ d = !SuitsFilterModel.doFilter _ d
    unfold SuitsFilterModel.doFilter
    rw [if_neg g1, if_neg g2]
    simp only [FilterModelBase.setNegate, FilterModelBase.rowCount]
    split_ifs <;> simp
  · show TagFilterModel.doFilter _ d = !TagFilterModel.doFilter _ d
    unfold TagFilterModel.doFilter
    rw [if_neg g1, if_neg g2]
    simp only [FilterModelBase.setNegate, FilterModelBase.rowCount]
    split_ifs <;> simp
  · show BuddyFilterModel.doFilter _ d = !BuddyFilterModel.doFilter _ d
    unfold BuddyFilterModel.doFilter
    rw [if_neg g1, if_neg g2]
    simp only [FilterModelBase.setNegate, FilterModelBase.rowCount]
    split_ifs <;> simp
  · show LocationFilterModel.doFilter sites _ d = !LocationFilterModel.doFilter sites _ d
    unfold LocationFilterModel.doFilter
    rw [if_neg g1, if_neg g2]
    simp only [FilterModelBase.setNegate, FilterModelBase.rowCount]
    split_ifs <;> simp

theorem wetsuitChecked_reachable : Reachable .Suit wetsuitChecked :=
  Reachable.step (.setData 0 true CheckStateRole) _ _
    (Reachable.step (.repopulate wetsuitData) _ _ Reachable.init rfl) (by decide)

theorem negate_correct_witness :
    doFilter .Suit [] (wetsuitChecked.setNegate true) (suitDive "") =
      !doFilter .Suit [] (wetsuitChecked.setNegate false) (suitDive "") :=
  negate_correct .Suit wetsuitChecked wetsuitChecked_reachable (by decide) (by decide) []
    (suitDive "")

/-! ## The coordinator -/

/-- C3, coordinator AND semantics.  Without a dive-site override, `showDive`
is true for a dive exactly when `doFilter` is true for it on every registered
filter, for every list of registered filters; with none registered it is
true. -/
theorem showDive_and (sites : List dive_site) (c : MultiFilterSortModel) (d : dive)
    (h : c.curr_dive_site = none) :
    (c.showDive sites d = true ↔ ∀ km ∈ c.models, doFilter km.1 sites km.2 d = true) ∧
    (c.models = [] → c.showDive sites d = true) := by
  unfold MultiFilterSortModel.showDive
  rw [h]
  simp only
  constructor
  · split
    · rename_i he
      have hnil : c.models = [] := List.isEmpty_iff.1 he
      rw [hnil]
      simp
    · rw [List.all_eq_true]
  · intro hnil
    rw [hnil]
    rfl

theorem showDive_and_witness :
    ((MultiFilterSortModel.init.addFilterModel .Suit wetsuitChecked).showDive [] (suitDive "")
        = true ↔
      ∀ km ∈ (MultiFilterSortModel.init.addFilterModel .Suit wetsuitChecked).models,
        doFilter km.1 [] km.2 (suitDive "") = true) ∧
    ((MultiFilterSortModel.init.addFilterModel .Suit wetsuitChecked).models = [] →
      (MultiFilterSortModel.init.addFilterModel .Suit wetsuitChecked).showDive [] (suitDive "")
        = true) :=
  showDive_and [] (MultiFilterSortModel.init.addFilterModel .Suit wetsuitChecked)
    (suitDive "") rfl

/-- C4, dive-site override exclusivity.  With an override active, `showDive`
is false for a dive whose site identifier does not resolve, and otherwise is
true exactly when the name of the site of the dive equals the name of the
override site or their identifiers are equal; the result is the same whatever
filters are registered and whatever state they are in. -/
theorem override_exclusive (sites : List dive_site) (c : MultiFilterSortModel)
    (curr : dive_site) (d : dive) (h : c.curr_dive_site = some curr) :
    (get_dive_site_by_uuid sites d.dive_site_uuid = none → c.showDive sites d = false) ∧
    (∀ ds, get_dive_site_by_uuid sites d.dive_site_uuid = some ds →
      (c.showDive sites d = true ↔ (ds.name = curr.name ∨ ds.uuid = curr.uuid))) ∧
    (∀ models n, MultiFilterSortModel.showDive sites
        { c with models := models, divesDisplayed := n } d = c.showDive sites d) := by
  refine ⟨?_, ?_, ?_⟩
  · intro hn
    unfold MultiFilterSortModel.showDive
    rw [h, hn]
  · intro ds hs
    unfold MultiFilterSortModel.showDive
    rw [h, hs]
    simp [same_string]
  · intro models n
    unfold MultiFilterSortModel.showDive
    simp only [h]

theorem override_exclusive_witness :
    (get_dive_site_by_uuid sampleData.dive_site_table reefDive.dive_site_uuid = none →
      reefOverride.showDive sampleData.dive_site_table reefDive = false) ∧
    (∀ ds, get_dive_site_by_uuid sampleData.dive_site_table reefDive.dive_site_uuid = some ds →
      (reefOverride.showDive sampleData.dive_site_table reefDive = true ↔
        (ds.name = (⟨1, "Reef".toList⟩ : dive_site).name ∨
          ds.uuid = (⟨1, "Reef".toList⟩ : dive_site).uuid))) ∧
    (∀ models n, MultiFilterSortModel.showDive sampleData.dive_site_table
        { reefOverride with models := models, divesDisplayed := n } reefDive =
      reefOverride.showDive sampleData.dive_site_table reefDive) :=
  override_exclusive sampleData.dive_site_table reefOverride ⟨1, "Reef".toList⟩ reefDive rfl

/-- C5, the end-to-end suit example.  On three dives with the suits
"Wetsuit", "Wetsuit" and none, `repopulate` on a new suit filter yields the
entries ("Wetsuit", unchecked, 2) and ("No suit set", unchecked, 1); once
"Wetsuit" is checked and the filter registered, without override, `showDive`
is true for the first two dives and false for the third, and `myInvalidate`
marks the dives so and sets `divesDisplayed` to 2. -/
theorem end_to_end_suit :
    (repopulate .Suit wetsuitData FilterModelBase.init).stringList =
      ["Wetsuit".toList, "No suit set".toList] ∧
    (repopulate .Suit wetsuitData FilterModelBase.init).items = [⟨false, 2⟩, ⟨false, 1⟩] ∧
    (repopulate .Suit wetsuitData FilterModelBase.init).setData 0 true CheckStateRole =
      some (true, wetsuitChecked) ∧
    wetsuitData.dive_table.map
      ((MultiFilterSortModel.init.addFilterModel .Suit wetsuitChecked).showDive
        wetsuitData.dive_site_table) = [true, true, false] ∧
    ((MultiFilterSortModel.init.addFilterModel .Suit wetsuitChecked).myInvalidate
      wetsuitData).2.divesDisplayed = 2 ∧
    ((MultiFilterSortModel.init.addFilterModel .Suit wetsuitChecked).myInvalidate
      wetsuitData).1.dive_table.map (fun d => d.hidden_by_filter) = [false, false, true] := by
  decide

/-! ## Repopulating twice -/

theorem filterModelBase_ext (a b : FilterModelBase) (h1 : a.stringList = b.stringList)
    (h2 : a.items = b.items) (h3 : a.anyChecked = b.anyChecked) (h4 : a.negate = b.negate) :
    a = b := by
  cases a
  cases b
  simp only at h1 h2 h3 h4
  rw [h1, h2, h3, h4]

theorem updateList_idem (countDives : QString → Int) (newList : List QString)
    (m : FilterModelBase) :
    (m.updateList countDives newList).updateList countDives newList =
      m.updateList countDives newList := by
  obtain ⟨a1, a2, a3, a4, a5, _⟩ := updateList_spec countDives newList m
  obtain ⟨b1, b2, b3, b4, b5, _⟩ :=
    updateList_spec countDives newList (m.updateList countDives newList)
  have hitems : ((m.updateList countDives newList).updateList countDives newList).items =
      (m.updateList countDives newList).items := by
    apply items_ext _ _ (by rw [b3, a3])
    · intro j hj
      rw [Bool.eq_iff_iff, b4 j]
      constructor
      · rintro (⟨i, hi1, hi2, hi3, hi4⟩ | ⟨h1, h2, h3⟩)
        · rcases (a4 i).1 hi2 with ⟨i0, _, _, hx, _⟩ | ⟨hlast, _, _⟩
          · rw [a1] at hi3
            have hself := indexOf_nameAt_self newList _ i hx
            rw [hself] at hi3
            have hij : i = j := by omega
            rw [← hij]
            exact hi2
          · rw [a3] at hi1
            omega
        · rw [a3] at h3
          have hj2 : newList.length - 1 = j := by omega
          rw [hj2] at h3
          exact h3
      · intro hcj
        rcases (a4 j).1 hcj with ⟨i0, _, _, hx, hlt⟩ | ⟨hlast, _, _⟩
        · left
          refine ⟨j, ?_, hcj, ?_, hlt⟩
          · rw [a3]
            omega
          · rw [a1]
            exact indexOf_nameAt_self newList _ j hx
        · right
          refine ⟨hlast, ?_, ?_⟩
          · intro hnil
            rw [hnil] at a3
            simp at a3
            omega
          · rw [a3]
            have hj2 : newList.length - 1 = j := by omega
            rw [hj2]
            exact hcj
    · intro j hj
      rw [b3] at hj
      rw [b5 j hj, a5 j hj]
  apply filterModelBase_ext
  · rw [b1, a1]
  · exact hitems
  · rw [updateList_anyChecked, updateList_anyChecked countDives newList m, hitems]
  · rw [b2]

/-- C6, idempotence of `repopulate`.  For each category filter, every filter
state and every data set, a second `repopulate` on the same data set leaves the
state the first one produced: the same names in the same order, the same
checked flags, the same counts and the same `anyChecked`. -/
theorem repopulate_idempotent (k : Kind) (D : DataSet) (m : FilterModelBase) :
    repopulate k D (repopulate k D m) = repopulate k D m := by
  cases k with
  | Suit => exact updateList_idem _ _ m
  | Tag =>
    show TagFilterModel.repopulate D (TagFilterModel.repopulate D m) =
      TagFilterModel.repopulate D m
    unfold TagFilterModel.repopulate
    split
    · rfl
    · exact updateList_idem _ _ m
  | Buddy => exact updateList_idem _ _ m
  | Location => exact updateList_idem _ _ m

/-! ## Checked state across updateList -/

theorem nameAt_of_lt (l : List QString) (i : Nat) (h : i < l.length) :
    nameAt l i = l.get ⟨i, h⟩ := by
  simp [nameAt, List.getD, List.getElem?_eq_getElem h]

theorem indexOf_nameAt_of_nodup (l : List QString) (j : Nat) (hj : j + 1 < l.length)
    (hnd : l.dropLast.Nodup) : indexOf l (nameAt l j) = (j : Int) := by
  obtain ⟨i, hij, hf⟩ := firstIdx_of_nameAt l j (by omega)
  obtain ⟨hi, hname, _⟩ := firstIdx_some _ l i hf
  have hdl : l.dropLast.length = l.length - 1 := List.length_dropLast l
  have hi2 : i < l.dropLast.length := by omega
  have hj2 : j < l.dropLast.length := by omega
  have e : l.dropLast[i] = l.dropLast[j] := by
    rw [List.getElem_dropLast, List.getElem_dropLast]
    rw [nameAt_of_lt l i hi, nameAt_of_lt l j (by omega)] at hname
    simpa using hname
  have hijeq : i = j := (hnd.getElem_inj_iff).1 e
  rw [indexOf_eq_coe, hf, hijeq]

theorem restored_iff_named (m : FilterModelBase) (newList : List QString) (N : QString)
    (j : Nat) (hN : indexOf newList N = (j : Int)) (hj : j + 1 < newList.length) :
    (∃ i, RestoredFrom m.stringList m.items newList i j) ↔
      ∃ i, i + 1 < m.items.length ∧ (itemAt m.items i).checked = true ∧
        nameAt m.stringList i = N := by
  have hfN := firstIdx_some N newList j ((indexOf_eq_coe newList N j).1 hN)
  constructor
  · rintro ⟨i, h1, h2, h3, _⟩
    have hfi := firstIdx_some _ newList j ((indexOf_eq_coe newList _ j).1 h3)
    exact ⟨i, by omega, h2, by rw [← hfi.2.1, hfN.2.1]⟩
  · rintro ⟨i, h1, h2, h3⟩
    exact ⟨i, by omega, h2, by rw [h3]; exact hN, hj⟩

/-- C7, checked-state preservation.  For a filter state whose names and items
are in step and for every new name list, after `updateList` the entry found
for a name N before the last position is checked exactly when the previous
list had a checked entry named N before its last position; every checked entry
before the last position carries the name of such a previous entry, so a name
that is gone leaves no checked entry behind; and when the new names before
the last position are distinct, this holds position by position. -/
theorem checked_state_preserved (countDives : QString → Int) (newList : List QString)
    (m : FilterModelBase) (_hs : InStep m) :
    (∀ (N : QString) (j : Nat), indexOf newList N = (j : Int) → j + 1 < newList.length →
      ((itemAt (m.updateList countDives newList).items j).checked = true ↔
        ∃ i, i + 1 < m.items.length ∧ (itemAt m.items i).checked = true ∧
          nameAt m.stringList i = N)) ∧
    (∀ j, j + 1 < newList.length →
      (itemAt (m.updateList countDives newList).items j).checked = true →
        ∃ i, i + 1 < m.items.length ∧ (itemAt m.items i).checked = true ∧
          nameAt m.stringList i = nameAt newList j) ∧
    (newList.dropLast.Nodup → ∀ j, j + 1 < newList.length →
      ((itemAt (m.updateList countDives newList).items j).checked = true ↔
        ∃ i, i + 1 < m.items.length ∧ (itemAt m.items i).checked = true ∧
          nameAt m.stringList i = nameAt newList j)) := by
  obtain ⟨_, _, _, u4, _, _⟩ := updateList_spec countDives newList m
  have key : ∀ (N : QString) (j : Nat), indexOf newList N = (j : Int) →
      j + 1 < newList.length →
      ((itemAt (m.updateList countDives newList).items j).checked = true ↔
        ∃ i, i + 1 < m.items.length ∧ (itemAt m.items i).checked = true ∧
          nameAt m.stringList i = N) := by
    intro N j hN hj
    rw [u4 j, ← restored_iff_named m newList N j hN hj]
    constructor
    · rintro (h | ⟨h1, _⟩)
      · exact h
      · omega
    · exact Or.inl
  refine ⟨key, ?_, ?_⟩
  · intro j hj hc
    rcases (u4 j).1 hc with ⟨i, h1, h2, h3, h4⟩ | ⟨h1, _⟩
    · have hself := indexOf_nameAt_self newList _ j h3
      exact (key _ j hself hj).1 hc
    · omega
  · intro hnd j hj
    exact key _ j (indexOf_nameAt_of_nodup newList j hj hnd) hj

theorem checked_state_preserved_witness :
    (∀ (N : QString) (j : Nat),
      indexOf ["Drysuit".toList, "Wetsuit".toList, "No suit set".toList] N = (j : Int) →
      j + 1 < ["Drysuit".toList, "Wetsuit".toList, "No suit set".toList].length →
      ((itemAt (wetsuitChecked.updateList (count_dives_with_suit wetsuitData)
          ["Drysuit".toList, "Wetsuit".toList, "No suit set".toList]).items j).checked = true ↔
        ∃ i, i + 1 < wetsuitChecked.items.length ∧
          (itemAt wetsuitChecked.items i).checked = true ∧
          nameAt wetsuitChecked.stringList i = N)) ∧
    (∀ j, j + 1 < ["Drysuit".toList, "Wetsuit".toList, "No suit set".toList].length →
      (itemAt (wetsuitChecked.updateList (count_dives_with_suit wetsuitData)
          ["Drysuit".toList, "Wetsuit".toList, "No suit set".toList]).items j).checked = true →
        ∃ i, i + 1 < wetsuitChecked.items.length ∧
          (itemAt wetsuitChecked.items i).checked = true ∧
          nameAt wetsuitChecked.stringList i =
            nameAt ["Drysuit".toList, "Wetsuit".toList, "No suit set".toList] j) ∧
    ((["Drysuit".toList, "Wetsuit".toList, "No suit set".toList] : List QString).dropLast.Nodup →
      ∀ j, j + 1 < ["Drysuit".toList, "Wetsuit".toList, "No suit set".toList].length →
      ((itemAt (wetsuitChecked.updateList (count_dives_with_suit wetsuitData)
          ["Drysuit".toList, "Wetsuit".toList, "No suit set".toList]).items j).checked = true ↔
        ∃ i, i + 1 < wetsuitChecked.items.length ∧
          (itemAt wetsuitChecked.items i).checked = true ∧
          nameAt wetsuitChecked.stringList i =
            nameAt ["Drysuit".toList, "Wetsuit".toList, "No suit set".toList] j)) :=
  checked_state_preserved (count_dives_with_suit wetsuitData)
    ["Drysuit".toList, "Wetsuit".toList, "No suit set".toList] wetsuitChecked rfl

/-! ## Dives without a value, and single values -/

theorem range_any_iff (n : Nat) (p : Nat → Bool) :
    (List.range n).any p = true ↔ ∃ i, i < n ∧ p i = true := by
  rw [List.any_eq_true]
  constructor
  · rintro ⟨i, hi, hp⟩
    exact ⟨i, List.mem_range.1 hi, hp⟩
  · rintro ⟨i, hi, hp⟩
    exact ⟨i, List.mem_range.2 hi, hp⟩

theorem getLast_eq_itemAt (items : List Item) (h : items ≠ []) :
    items.getLast? = some (itemAt items (items.length - 1)) := by
  have hpos : 0 < items.length := List.length_pos.2 h
  rw [List.getLast?_eq_getElem?, itemAt_of_lt items (items.length - 1) (by omega)]
  rw [List.getElem?_eq_getElem (by omega)]
  rfl

theorem doFilter_no_value (k : Kind) (sites : List dive_site) (m : FilterModelBase) (d : dive)
    (ha : m.anyChecked = true) (hne : m.stringList ≠ []) (hv : hasNoValue k sites d = true) :
    doFilter k sites m d = ((itemAt m.items (m.rowCount - 1)).checked != m.negate) := by
  have g := guard_false m ha hne
  cases k
  · show SuitsFilterModel.doFilter m d = _
    unfold SuitsFilterModel.doFilter
    have hv1 : d.suit.isEmpty = true := hv
    rw [if_neg g, if_pos hv1]
  · show TagFilterModel.doFilter m d = _
    unfold TagFilterModel.doFilter
    have hv1 : d.tag_list.isEmpty = true := hv
    rw [if_neg g, if_pos hv1]
  · show BuddyFilterModel.doFilter m d = _
    unfold BuddyFilterModel.doFilter
    have hv2 : ((personsParts d).map trimmed).isEmpty = true := by
      have h0 : personsParts d = [] := List.isEmpty_iff.1 hv
      rw [h0]
      rfl
    rw [if_neg g, if_pos hv2]
  · show LocationFilterModel.doFilter sites m d = _
    unfold LocationFilterModel.doFilter
    have hv1 : (get_dive_location sites d).isEmpty = true := hv
    rw [if_neg g, if_pos hv1]

theorem last_item_rule (k : Kind) (m : FilterModelBase) (hr : Reachable k m)
    (hne : m.stringList ≠ []) (hc : someChecked m.items = true)
    (sites : List dive_site) (d : dive) (hv : hasNoValue k sites d = true) :
    ∃ s, m.items.getLast? = some s ∧
      (doFilter k sites m d = true ↔ s.checked ≠ m.negate) := by
  have hcons := consistent_of_reachable k m hr
  have ha : m.anyChecked = true := hcons.2.1 hc
  have hitems : m.items ≠ [] := by
    intro hnil
    rw [hnil] at hc
    exact Bool.false_ne_true hc
  refine ⟨_, getLast_eq_itemAt m.items hitems, ?_⟩
  rw [doFilter_no_value k sites m d ha hne hv, FilterModelBase.rowCount, ← hcons.1]
  simp

theorem tagChecked_reachable : Reachable .Tag tagChecked :=
  Reachable.step (.setData 0 true CheckStateRole) _ _
    (Reachable.step (.repopulate sampleData) _ _ Reachable.init rfl) (by decide)

/-- C8 as stated fails.  The tag filter repopulated on the sample data has no
entry checked and `negate` cleared; for the dive without tags `doFilter`
returns true although the flag of the last entry does not differ from
`negate`.  Checking the first entry, which leaves the last entry and `negate`
as they were, turns the result to false. -/
theorem tag_sentinel_counterexample :
    Reachable .Tag (repopulate .Tag sampleData FilterModelBase.init) ∧
    wreckDive.tag_list = [] ∧
    ¬ (doFilter .Tag [] (repopulate .Tag sampleData FilterModelBase.init) wreckDive = true ↔
      (itemAt (repopulate .Tag sampleData FilterModelBase.init).items
          ((repopulate .Tag sampleData FilterModelBase.init).items.length - 1)).checked ≠
        (repopulate .Tag sampleData FilterModelBase.init).negate) ∧
    step .Tag (.setData 0 true CheckStateRole)
      (repopulate .Tag sampleData FilterModelBase.init) = some tagChecked ∧
    tagChecked.items.getLast? =
      (repopulate .Tag sampleData FilterModelBase.init).items.getLast? ∧
    tagChecked.negate = (repopulate .Tag sampleData FilterModelBase.init).negate ∧
    doFilter .Tag [] tagChecked wreckDive ≠
      doFilter .Tag [] (repopulate .Tag sampleData FilterModelBase.init) wreckDive :=
  ⟨Reachable.step (.repopulate sampleData) _ _ Reachable.init rfl, rfl, by decide, by decide,
    by decide, by decide, by decide⟩

/-- C8 as amended.  For a reachable tag filter with a non-empty entry list on
which some entry is checked, and a dive with zero tags, `doFilter` returns true
exactly when the flag of the last entry differs from `negate`; so two such
filters with the same flag on the last entry and the same `negate` give the
same result, whatever their other entries. -/
theorem tag_sentinel (m : FilterModelBase) (hr : Reachable .Tag m)
    (hne : m.stringList ≠ []) (hc : someChecked m.items = true)
    (sites : List dive_site) (d : dive) (hd : d.tag_list = [])
    (m2 : FilterModelBase) (hr2 : Reachable .Tag m2)
    (hne2 : m2.stringList ≠ []) (hc2 : someChecked m2.items = true)
    (hlast : m2.items.getLast?.map (fun it => it.checked) =
      m.items.getLast?.map (fun it => it.checked))
    (hneg : m2.negate = m.negate) :
    (∃ s, m.items.getLast? = some s ∧
      (doFilter .Tag sites m d = true ↔ s.checked ≠ m.negate)) ∧
    doFilter .Tag sites m2 d = doFilter .Tag sites m d := by
  have hv : hasNoValue .Tag sites d = true := by
    show d.tag_list.isEmpty = true
    rw [hd]
    rfl
  obtain ⟨s, hs, hiff⟩ := last_item_rule .Tag m hr hne hc sites d hv
  obtain ⟨s2, hs2, hiff2⟩ := last_item_rule .Tag m2 hr2 hne2 hc2 sites d hv
  refine ⟨⟨s, hs, hiff⟩, ?_⟩
  rw [hs, hs2] at hlast
  simp only [Option.map_some', Option.some.injEq] at hlast
  rw [Bool.eq_iff_iff, hiff, hiff2, hlast, hneg]

theorem tag_sentinel_witness :
    (∃ s, tagChecked.items.getLast? = some s ∧
      (doFilter .Tag [] tagChecked wreckDive = true ↔ s.checked ≠ tagChecked.negate)) ∧
    doFilter .Tag [] tagCheckedBoth wreckDive = doFilter .Tag [] tagChecked wreckDive :=
  tag_sentinel tagChecked tagChecked_reachable (by decide) (by decide) [] wreckDive rfl
    tagCheckedBoth
    (Reachable.step (.setData 1 true CheckStateRole) _ _ tagChecked_reachable (by decide))
    (by decide) (by decide) (by decide) (by decide)

/-- C9, the no-value rule.  For a reachable filter of any kind with a
non-empty entry list on which some entry is checked, a dive without a value in
the category passes exactly when the checked flag of the last entry differs
from `negate`. -/
theorem no_value_rule (k : Kind) (m : FilterModelBase) (hr : Reachable k m)
    (hne : m.stringList ≠ []) (hc : someChecked m.items = true)
    (sites : List dive_site) (d : dive) (hv : hasNoValue k sites d = true) :
    ∃ s, m.items.getLast? = some s ∧
      (doFilter k sites m d = true ↔ s.checked ≠ m.negate) :=
  last_item_rule k m hr hne hc sites d hv

theorem no_value_rule_witness :
    ∃ s, buddyAll.items.getLast? = some s ∧
      (doFilter .Buddy [] buddyAll bareDive = true ↔ s.checked ≠ buddyAll.negate) :=
  no_value_rule .Buddy buddyAll
    (Reachable.step .selectAll _ _
      (Reachable.step (.repopulate sampleData) _ _ Reachable.init rfl) rfl)
    (by decide) (by decide) [] bareDive (by decide)

theorem any_iff_checkedNamed (m : FilterModelBase) (v : QString) :
    (List.range (m.rowCount - 1)).any
        (fun i => (itemAt m.items i).checked && v == nameAt m.stringList i) = true ↔
      CheckedNamed m v := by
  rw [range_any_iff]
  unfold CheckedNamed FilterModelBase.rowCount
  constructor
  · rintro ⟨i, hi, hp⟩
    simp only [Bool.and_eq_true, beq_iff_eq] at hp
    exact ⟨i, by omega, hp.1, hp.2.symm⟩
  · rintro ⟨i, hi, h1, h2⟩
    refine ⟨i, by omega, ?_⟩
    simp only [Bool.and_eq_true, beq_iff_eq]
    exact ⟨h1, h2.symm⟩

theorem doFilter_single (k : Kind) (sites : List dive_site) (m : FilterModelBase) (d : dive)
    (v : QString) (ha : m.anyChecked = true) (hne : m.stringList ≠ [])
    (hv : singleValue k sites d = some v) (hvne : v ≠ []) :
    doFilter k sites m d =
      if (List.range (m.rowCount - 1)).any
          (fun i => (itemAt m.items i).checked && v == nameAt m.stringList i) = true
      then !m.negate else m.negate := by
  have g := guard_false m ha hne
  have hemp : ¬ (v.isEmpty = true) := fun h => hvne (List.isEmpty_iff.1 h)
  cases k
  · have e : d.suit = v := by
      simpa [singleValue] using hv
    show SuitsFilterModel.doFilter m d = _
    unfold SuitsFilterModel.doFilter
    rw [e, if_neg g, if_neg hemp]
  · simp [singleValue] at hv
  · simp [singleValue] at hv
  · have e : get_dive_location sites d = v := by
      simpa [singleValue] using hv
    show LocationFilterModel.doFilter sites m d = _
    unfold LocationFilterModel.doFilter
    rw [e, if_neg g, if_neg hemp]

/-- C10, single-value matching.  For a reachable suit or location filter with
a non-empty entry list on which some entry is checked, and a dive whose suit
(resolved location) is not empty, `doFilter` is true exactly when either some
checked entry before the last has exactly that name, or `negate` is set, but
not both; when no entry before the last is checked with that name the result
is `negate`, whatever the last entry is. -/
theorem single_value_matching (k : Kind) (m : FilterModelBase) (hr : Reachable k m)
    (hne : m.stringList ≠ []) (hc : someChecked m.items = true)
    (sites : List dive_site) (d : dive) (v : QString)
    (hv : singleValue k sites d = some v) (hvne : v ≠ []) :
    (doFilter k sites m d = true ↔ Xor' (CheckedNamed m v) (m.negate = true)) ∧
    (¬ CheckedNamed m v → doFilter k sites m d = m.negate) := by
  have ha : m.anyChecked = true := (consistent_of_reachable k m hr).2.1 hc
  rw [doFilter_single k sites m d v ha hne hv hvne]
  by_cases hcn : CheckedNamed m v
  · rw [if_pos ((any_iff_checkedNamed m v).2 hcn)]
    refine ⟨?_, fun h => absurd hcn h⟩
    cases hn : m.negate <;> simp [Xor', hcn]
  · have hany : ¬ ((List.range (m.rowCount - 1)).any
        (fun i => (itemAt m.items i).checked && v == nameAt m.stringList i) = true) :=
      fun h => hcn ((any_iff_checkedNamed m v).1 h)
    rw [if_neg hany]
    refine ⟨?_, fun _ => rfl⟩
    cases hn : m.negate <;> simp [Xor', hcn]

theorem single_value_matching_witness :
    (doFilter .Location sampleData.dive_site_table reefChecked reefDive = true ↔
      Xor' (CheckedNamed reefChecked "Reef".toList) (reefChecked.negate = true)) ∧
    (¬ CheckedNamed reefChecked "Reef".toList →
      doFilter .Location sampleData.dive_site_table reefChecked reefDive =
        reefChecked.negate) :=
  single_value_matching .Location reefChecked
    (Reachable.step (.setData 0 true CheckStateRole) _ _
      (Reachable.step (.repopulate sampleData) _ _ Reachable.init rfl) (by decide))
    (by decide) (by decide) sampleData.dive_site_table reefDive "Reef".toList (by decide)
    (by decide)

/-! ## Tags and buddies -/

theorem nameAt_dropLast (l : List QString) (i : Nat) (h : i + 1 < l.length) :
    nameAt l.dropLast i = nameAt l i := by
  have h1 : i < l.dropLast.length := by
    rw [List.length_dropLast]
    omega
  rw [nameAt_of_lt _ i h1, nameAt_of_lt l i (by omega)]
  simp [List.getElem_dropLast]

theorem indexOf_nameAt_nodup (l : List QString) (j : Nat) (hj : j < l.length)
    (hnd : l.Nodup) : indexOf l (nameAt l j) = (j : Int) := by
  obtain ⟨i, hij, hf⟩ := firstIdx_of_nameAt l j hj
  obtain ⟨hi, hname, _⟩ := firstIdx_some _ l i hf
  rw [nameAt_of_lt l i hi, nameAt_of_lt l j hj] at hname
  have hijeq : i = j := (hnd.getElem_inj_iff).1 (by simpa using hname)
  rw [indexOf_eq_coe, hf, hijeq]

theorem tagFirstMatch_iff_tagMatch (m : FilterModelBase) (d : dive)
    (hnd : m.stringList.dropLast.Nodup) : TagFirstMatch m d ↔ TagMatch m d := by
  have hlen : m.stringList.dropLast.length = m.stringList.length - 1 :=
    List.length_dropLast _
  constructor
  · rintro ⟨t, ht, i, hi, hc⟩
    obtain ⟨h1, h2, _⟩ := firstIdx_some t _ i ((indexOf_eq_coe _ t i).1 hi)
    have hlt : i + 1 < m.stringList.length := by omega
    refine ⟨i, hlt, hc, ?_⟩
    rw [← nameAt_dropLast _ i hlt, h2]
    exact ht
  · rintro ⟨i, hlt, hc, hmem⟩
    refine ⟨_, hmem, i, ?_, hc⟩
    rw [← nameAt_dropLast _ i hlt]
    exact indexOf_nameAt_nodup _ i (by omega) hnd

theorem tag_any_iff (m : FilterModelBase) (d : dive) :
    d.tag_list.any
        (fun tagName =>
          decide (0 ≤ indexOf m.stringList.dropLast tagName) &&
          (itemAt m.items (indexOf m.stringList.dropLast tagName).toNat).checked) = true ↔
      TagFirstMatch m d := by
  rw [List.any_eq_true]
  unfold TagFirstMatch
  constructor
  · rintro ⟨t, ht, hp⟩
    simp only [Bool.and_eq_true, decide_eq_true_eq] at hp
    exact ⟨t, ht, _, (Int.toNat_of_nonneg hp.1).symm, hp.2⟩
  · rintro ⟨t, ht, i, hi, hc⟩
    refine ⟨t, ht, ?_⟩
    simp only [Bool.and_eq_true, decide_eq_true_eq]
    rw [hi]
    exact ⟨Int.ofNat_nonneg i, by simpa using hc⟩

theorem doFilter_tag (sites : List dive_site) (m : FilterModelBase) (d : dive)
    (ha : m.anyChecked = true) (hne : m.stringList ≠ []) (hd : d.tag_list ≠ []) :
    doFilter .Tag sites m d = true ↔ Xor' (TagFirstMatch m d) (m.negate = true) := by
  have g := guard_false m ha hne
  have hemp : ¬ (d.tag_list.isEmpty = true) := fun h => hd (List.isEmpty_iff.1 h)
  have hnames : m.stringList.isEmpty = false := by
    cases hl : m.stringList with
    | nil => exact absurd hl hne
    | cons x xs => rfl
  show TagFilterModel.doFilter m d = true ↔ _
  unfold TagFilterModel.doFilter
  rw [if_neg g, if_neg hemp, hnames]
  simp only [Bool.not_false, Bool.true_and]
  by_cases hm : TagFirstMatch m d
  · rw [if_pos ((tag_any_iff m d).2 hm)]
    cases hn : m.negate <;> simp [Xor', hm]
  · rw [if_neg (fun h => hm ((tag_any_iff m d).1 h))]
    cases hn : m.negate <;> simp [Xor', hm]

theorem reachable_of_reachableDistinct (k : Kind) (m : FilterModelBase)
    (h : ReachableDistinct k m) : Reachable k m := by
  induction h with
  | init => exact Reachable.init
  | step op m m' _ _ hs ih => exact Reachable.step op m m' ih hs

theorem tag_repopulate_nodup (D : DataSet) (m : FilterModelBase) (hD : DistinctTagNames D)
    (ih : m.stringList.dropLast.Nodup) :
    (repopulate .Tag D m).stringList.dropLast.Nodup := by
  show (TagFilterModel.repopulate D m).stringList.dropLast.Nodup
  unfold TagFilterModel.repopulate
  split
  · exact ih
  · rw [(updateList_spec _ _ m).1, List.dropLast_concat]
    have hperm := List.perm_insertionSort (fun (a b : QString) => a ≤ b)
      (D.g_tag_list.filter (fun name => count_dives_with_tag D name > 0))
    exact hperm.nodup_iff.2 (List.Nodup.filter _ hD)

/-- The tag filter lists each name once before its last entry, when the data
sets have distinct tag names. -/
theorem tag_names_nodup (m : FilterModelBase) (h : ReachableDistinct .Tag m) :
    m.stringList.dropLast.Nodup := by
  induction h with
  | init => exact List.nodup_nil
  | step op m m' _ hd hs ih =>
    cases op with
    | repopulate D =>
      simp only [step, Option.some.injEq] at hs
      subst hs
      exact tag_repopulate_nodup D m (hd D rfl) ih
    | setData row value role =>
      simp only [step, Option.map_eq_some'] at hs
      obtain ⟨r, hr, rfl⟩ := hs
      unfold FilterModelBase.setData at hr
      split at hr
      · split at hr
        · cases hr
          exact ih
        · cases hr
      · cases hr
        exact ih
    | clearFilter =>
      simp only [step, Option.some.injEq] at hs
      subst hs
      exact ih
    | selectAll =>
      simp only [step, Option.some.injEq] at hs
      subst hs
      exact ih
    | invertSelection =>
      simp only [step, Option.some.injEq] at hs
      subst hs
      exact ih
    | setNegate b =>
      simp only [step, Option.some.injEq] at hs
      subst hs
      exact ih
    | changeName o n => simp [step] at hs
    | addName n => simp [step] at hs

/-- C11, tag matching.  For a tag filter, reached through data sets with
distinct tag names, with a non-empty entry list on which some entry is
checked, and a dive with at least one tag, `doFilter` is true exactly when
either some checked entry before the last has the name of a tag of the dive,
or `negate` is set, but not both. -/
theorem tag_matching (m : FilterModelBase) (hr : ReachableDistinct .Tag m)
    (hne : m.stringList ≠ []) (hc : someChecked m.items = true)
    (sites : List dive_site) (d : dive) (hd : d.tag_list ≠ []) :
    doFilter .Tag sites m d = true ↔ Xor' (TagMatch m d) (m.negate = true) := by
  have ha : m.anyChecked = true :=
    (consistent_of_reachable .Tag m (reachable_of_reachableDistinct .Tag m hr)).2.1 hc
  rw [← tagFirstMatch_iff_tagMatch m d (tag_names_nodup m hr)]
  exact doFilter_tag sites m d ha hne hd

theorem tag_matching_witness :
    doFilter .Tag [] tagChecked reefDive = true ↔
      Xor' (TagMatch tagChecked reefDive) (tagChecked.negate = true) :=
  tag_matching tagChecked
    (ReachableDistinct.step (.setData 0 true CheckStateRole) _ _
      (ReachableDistinct.step (.repopulate sampleData) _ _ ReachableDistinct.init
        (fun D h => by
          cases h
          show sampleData.g_tag_list.Nodup
          decide) rfl)
      (fun D h => by cases h) (by decide))
    (by decide) (by decide) [] reefDive (by decide)

theorem buddy_any_iff (m : FilterModelBase) (d : dive) :
    (List.range (m.rowCount - 1)).any
        (fun i => (itemAt m.items i).checked &&
          containsCaseInsensitive ((personsParts d).map trimmed) (nameAt m.stringList i))
        = true ↔ BuddyHit m d := by
  rw [range_any_iff]
  unfold BuddyHit FilterModelBase.rowCount containsCaseInsensitive
  constructor
  · rintro ⟨i, hi, hp⟩
    simp only [Bool.and_eq_true, List.any_eq_true, List.mem_map, beq_iff_eq] at hp
    obtain ⟨hc, q, ⟨p0, hp0, rfl⟩, hq⟩ := hp
    exact ⟨i, by omega, hc, p0, hp0, hq⟩
  · rintro ⟨i, hi, hc, p0, hp0, hq⟩
    refine ⟨i, by omega, ?_⟩
    simp only [Bool.and_eq_true, List.any_eq_true, List.mem_map, beq_iff_eq]
    exact ⟨hc, trimmed p0, ⟨p0, hp0, rfl⟩, hq⟩

theorem doFilter_buddy (sites : List dive_site) (m : FilterModelBase) (d : dive)
    (ha : m.anyChecked = true) (hne : m.stringList ≠ []) (hd : personsParts d ≠ []) :
    doFilter .Buddy sites m d = true ↔ Xor' (BuddyHit m d) (m.negate = true) := by
  have g := guard_false m ha hne
  have hemp : ¬ (((personsParts d).map trimmed).isEmpty = true) := by
    intro h
    have h0 := List.isEmpty_iff.1 h
    exact hd (List.map_eq_nil_iff.1 h0)
  show BuddyFilterModel.doFilter m d = true ↔ _
  unfold BuddyFilterModel.doFilter
  rw [if_neg g, if_neg hemp]
  by_cases hm : BuddyHit m d
  · rw [if_pos ((buddy_any_iff m d).2 hm)]
    cases hn : m.negate <;> simp [Xor', hm]
  · rw [if_neg (fun h => hm ((buddy_any_iff m d).1 h))]
    cases hn : m.negate <;> simp [Xor', hm]

/-! ### Splitting, trimming and comparing without case -/

theorem splitParts_unique (sep : Char) (s : QString) (parts : List QString)
    (h : SplitParts sep s parts) : parts = splitSkipEmpty sep s := by
  obtain ⟨segs, hne, hfree, rfl, rfl⟩ := h
  unfold splitSkipEmpty
  rw [List.splitOn_intercalate _ sep hfree hne]

theorem splitOnP_free (q : Char → Bool) (xs : List Char) :
    ∀ seg ∈ xs.splitOnP q, ∀ c ∈ seg, q c = false := by
  induction xs with
  | nil =>
    intro seg hseg c hc
    rw [List.splitOnP_nil] at hseg
    simp only [List.mem_singleton] at hseg
    rw [hseg] at hc
    simp at hc
  | cons x xs ih =>
    intro seg hseg c hc
    rw [List.splitOnP_cons] at hseg
    split at hseg
    · rcases List.mem_cons.1 hseg with h | h
      · rw [h] at hc
        simp at hc
      · exact ih seg h c hc
    · rename_i hx
      cases hsp : xs.splitOnP q with
      | nil => exact absurd hsp (List.splitOnP_ne_nil q xs)
      | cons y ys =>
        rw [hsp] at hseg ih
        simp only [List.modifyHead_cons, List.mem_cons] at hseg
        rcases hseg with h | h
        · rw [h] at hc
          rcases List.mem_cons.1 hc with hcx | hcy
          · rw [hcx]
            simpa using hx
          · exact ih y (List.mem_cons_self _ _) c hcy
        · exact ih seg (List.mem_cons_of_mem _ h) c hc

/-- Every string has a split: the one `QString::split` computes. -/
theorem splitParts_splitSkipEmpty (sep : Char) (s : QString) :
    SplitParts sep s (splitSkipEmpty sep s) := by
  refine ⟨s.splitOn sep, List.splitOnP_ne_nil _ s, ?_, (List.intercalate_splitOn s sep).symm, rfl⟩
  intro seg hseg hmem
  have h := splitOnP_free (fun c => c == sep) s seg hseg sep hmem
  simp at h

theorem dropWhile_append_of_all (q : Char → Bool) (a l : List Char)
    (h : ∀ c ∈ a, q c = true) : (a ++ l).dropWhile q = l.dropWhile q := by
  induction a with
  | nil => rfl
  | cons x xs ih =>
    have hx : q x = true := h x (List.mem_cons_self _ _)
    rw [List.cons_append, List.dropWhile_cons, if_pos hx]
    exact ih (fun c hc => h c (List.mem_cons_of_mem _ hc))

theorem dropWhile_of_head (q : Char → Bool) (l : List Char)
    (h : ∀ c, l.head? = some c → q c = false) : l.dropWhile q = l := by
  cases l with
  | nil => rfl
  | cons x xs =>
    have hx : q x = false := h x rfl
    rw [List.dropWhile_cons]
    simp [hx]

theorem dropWhile_all (q : Char → Bool) (l : List Char) (h : ∀ c ∈ l, q c = true) :
    l.dropWhile q = [] := by
  have := dropWhile_append_of_all q l [] h
  simpa using this

/-- The trimmed form of a string is what `trimmed` computes. -/
theorem trimmed_unique (p t : QString) (h : TrimmedForm p t) : trimmed p = t := by
  obtain ⟨a, b, rfl, ha, hb, hh, hl⟩ := h
  unfold trimmed
  rw [List.append_assoc, dropWhile_append_of_all isSpace a (t ++ b) ha]
  cases t with
  | nil =>
    rw [List.nil_append, dropWhile_all isSpace b hb]
    rfl
  | cons x xs =>
    have h1 : ((x :: xs) ++ b).dropWhile isSpace = (x :: xs) ++ b :=
      dropWhile_of_head isSpace _ (fun c hc => hh c (by simpa using hc))
    rw [h1, List.reverse_append,
      dropWhile_append_of_all isSpace b.reverse (x :: xs).reverse
        (fun c hc => hb c (List.mem_reverse.1 hc)),
      dropWhile_of_head isSpace (x :: xs).reverse
        (fun c hc => hl c (by rw [← List.head?_reverse]; exact hc)),
      List.reverse_reverse]

theorem head_dropWhile (q : Char → Bool) (l : List Char) (c : Char)
    (h : (l.dropWhile q).head? = some c) : q c = false := by
  have := List.head?_dropWhile_not q l
  rw [h] at this
  exact this

/-- Every string has a trimmed form: the one `trimmed` computes. -/
theorem trimmedForm_trimmed (p : QString) : TrimmedForm p (trimmed p) := by
  have h1 : p = p.takeWhile isSpace ++ p.dropWhile isSpace :=
    (List.takeWhile_append_dropWhile isSpace p).symm
  have h2 : (p.dropWhile isSpace).reverse =
      (p.dropWhile isSpace).reverse.takeWhile isSpace ++
        (p.dropWhile isSpace).reverse.dropWhile isSpace :=
    (List.takeWhile_append_dropWhile isSpace _).symm
  have h3 : p.dropWhile isSpace =
      ((p.dropWhile isSpace).reverse.dropWhile isSpace).reverse ++
        ((p.dropWhile isSpace).reverse.takeWhile isSpace).reverse := by
    rw [← List.reverse_append, ← h2, List.reverse_reverse]
  refine ⟨p.takeWhile isSpace, ((p.dropWhile isSpace).reverse.takeWhile isSpace).reverse,
    ?_, ?_, ?_, ?_, ?_⟩
  · unfold trimmed
    rw [List.append_assoc, ← h3]
    exact h1
  · intro c hc
    exact List.mem_takeWhile_imp hc
  · intro c hc
    exact List.mem_takeWhile_imp (List.mem_reverse.1 hc)
  · intro c hc
    unfold trimmed at hc
    apply head_dropWhile isSpace p c
    rw [h3]
    cases hr : ((p.dropWhile isSpace).reverse.dropWhile isSpace).reverse with
    | nil =>
      rw [hr] at hc
      simp at hc
    | cons y ys =>
      rw [hr] at hc
      simpa using hc
  · intro c hc
    unfold trimmed at hc
    rw [List.getLast?_reverse] at hc
    exact head_dropWhile isSpace _ c hc

theorem foldCase_eq_iff (a b : QString) :
    foldCase a = foldCase b ↔ EqIgnoringCase a b := by
  unfold foldCase EqIgnoringCase
  induction a generalizing b with
  | nil =>
    cases b with
    | nil => simp
    | cons y ys => simp
  | cons x xs ih =>
    cases b with
    | nil => simp
    | cons y ys =>
      simp only [List.map_cons, List.cons.injEq, List.forall₂_cons]
      rw [ih ys]

theorem buddyHit_iff_buddyMatch (m : FilterModelBase) (d : dive) :
    BuddyHit m d ↔ BuddyMatch m (personsParts d) := by
  unfold BuddyHit BuddyMatch
  constructor
  · rintro ⟨i, hi, hc, p, hp, hq⟩
    exact ⟨i, hi, hc, p, hp, trimmed p, trimmedForm_trimmed p,
      (foldCase_eq_iff _ _).1 hq.symm⟩
  · rintro ⟨i, hi, hc, p, hp, t, ht, hq⟩
    refine ⟨i, hi, hc, p, hp, ?_⟩
    rw [trimmed_unique p t ht]
    exact ((foldCase_eq_iff _ _).2 hq).symm

/-- C12, buddy matching by split-then-trim.  For a reachable buddy filter with
a non-empty entry list on which some entry is checked, and a dive for which
splitting buddy, a comma and divemaster on commas, dropping the empty parts,
yields at least one part, `doFilter` is true exactly when either some checked
entry before the last has a name equal, ignoring case, to the whitespace-trimmed
form of one of those parts, or `negate` is set, but not both.  Splitting,
trimming and equality ignoring case are the notions of which these are
instances: "Ann, Bob," splits into "Ann" and " Bob"; "  ZOË " trims to
"ZOË"; "Zoë" equals "ZOË" ignoring case, and "Zoe" does not equal "Zoë". -/
theorem buddy_matching (m : FilterModelBase) (hr : Reachable .Buddy m)
    (hne : m.stringList ≠ []) (hc : someChecked m.items = true)
    (sites : List dive_site) (d : dive) (parts : List QString)
    (hsplit : SplitParts ',' (d.buddy ++ [','] ++ d.divemaster) parts)
    (hd : parts ≠ []) :
    (doFilter .Buddy sites m d = true ↔ Xor' (BuddyMatch m parts) (m.negate = true)) ∧
    SplitParts ',' "Ann, Bob,".toList ["Ann".toList, " Bob".toList] ∧
    TrimmedForm "  ZOË ".toList "ZOË".toList ∧
    EqIgnoringCase "Zoë".toList "ZOË".toList ∧
    ¬ EqIgnoringCase "Zoe".toList "Zoë".toList := by
  refine ⟨?_, ?_, ?_, ?_, ?_⟩
  · have ha : m.anyChecked = true := (consistent_of_reachable .Buddy m hr).2.1 hc
    have hparts : parts = personsParts d := splitParts_unique _ _ _ hsplit
    rw [hparts] at hd ⊢
    rw [← buddyHit_iff_buddyMatch m d]
    exact doFilter_buddy sites m d ha hne hd
  · have h := splitParts_splitSkipEmpty ',' "Ann, Bob,".toList
    have e : splitSkipEmpty ',' "Ann, Bob,".toList = ["Ann".toList, " Bob".toList] := by
      decide
    rw [e] at h
    exact h
  · have h := trimmedForm_trimmed "  ZOË ".toList
    have e : trimmed "  ZOË ".toList = "ZOË".toList := by decide
    rw [e] at h
    exact h
  · exact (foldCase_eq_iff _ _).1 (by decide)
  · exact fun h => absurd ((foldCase_eq_iff _ _).2 h) (by decide)

theorem buddy_matching_witness :
    ((doFilter .Buddy [] zoeChecked shoutDive = true ↔
        Xor' (BuddyMatch zoeChecked ["  ZOË ".toList]) (zoeChecked.negate = true)) ∧
      SplitParts ',' "Ann, Bob,".toList ["Ann".toList, " Bob".toList] ∧
      TrimmedForm "  ZOË ".toList "ZOË".toList ∧
      EqIgnoringCase "Zoë".toList "ZOË".toList ∧
      ¬ EqIgnoringCase "Zoe".toList "Zoë".toList) ∧
    doFilter .Buddy [] zoeChecked shoutDive = true ∧
    doFilter .Buddy [] zoeChecked reefDive = false :=
  ⟨buddy_matching zoeChecked
    (Reachable.step (.setData 0 true CheckStateRole) _ _
      (Reachable.step (.repopulate emileData) _ _ Reachable.init rfl) (by decide))
    (by decide) (by decide) [] shoutDive ["  ZOË ".toList]
    ⟨["  ZOË ".toList, []], by decide, by decide, by decide, by decide⟩ (by decide),
    by decide, by decide⟩

/-! ## The anyChecked flag -/

/-- C13 fails on the code.  On a filter of any kind as constructed, which has
no entries, `selectAll` is a reachable call and leaves `anyChecked` true
although no entry is checked. -/
theorem selectAll_without_entries (k : Kind) :
    Reachable k FilterModelBase.init.selectAll ∧
    FilterModelBase.init.selectAll.items = [] ∧
    someChecked FilterModelBase.init.selectAll.items = false ∧
    FilterModelBase.init.selectAll.anyChecked = true :=
  ⟨Reachable.step .selectAll _ _ Reachable.init rfl, rfl, rfl, rfl⟩

/-! ## Override and recomputation -/

/-- C14 as stated fails.  Identifier 99 resolves to no site of the sample
data; after `startFilterDiveSite` with it, on a coordinator without registered
filters, `showDive` is true for a dive. -/
theorem unresolved_override_counterexample :
    get_dive_site_by_uuid sampleData.dive_site_table 99 = none ∧
    (MultiFilterSortModel.init.startFilterDiveSite sampleData 99).2.showDive
      sampleData.dive_site_table reefDive = true := by
  decide

theorem myInvalidate_models (D : DataSet) (c : MultiFilterSortModel) :
    (c.myInvalidate D).2.models = c.models ∧
    (c.myInvalidate D).2.curr_dive_site = c.curr_dive_site ∧
    (c.myInvalidate D).1.dive_site_table = D.dive_site_table :=
  ⟨rfl, rfl, rfl⟩

theorem showDive_congr (sites : List dive_site) (c c2 : MultiFilterSortModel) (d : dive)
    (h1 : c2.models = c.models) (h2 : c2.curr_dive_site = c.curr_dive_site) :
    c2.showDive sites d = c.showDive sites d := by
  unfold MultiFilterSortModel.showDive
  rw [h1, h2]

/-- C14 as amended.  When `startFilterDiveSite` is called with an identifier
that resolves to no dive site, `curr_dive_site` is null afterwards: no override
is active, the registered filters are as before, and `showDive` is true for a
dive exactly when `doFilter` is true for it on every registered filter. -/
theorem unresolved_override (D : DataSet) (uuid : Nat) (c : MultiFilterSortModel)
    (h : get_dive_site_by_uuid D.dive_site_table uuid = none) :
    (c.startFilterDiveSite D uuid).2.curr_dive_site = none ∧
    (c.startFilterDiveSite D uuid).2.models = c.models ∧
    ∀ d, ((c.startFilterDiveSite D uuid).2.showDive D.dive_site_table d = true ↔
      ∀ km ∈ c.models, doFilter km.1 D.dive_site_table km.2 d = true) := by
  have hcur : (c.startFilterDiveSite D uuid).2.curr_dive_site = none := by
    show get_dive_site_by_uuid D.dive_site_table uuid = none
    exact h
  have hmod : (c.startFilterDiveSite D uuid).2.models = c.models := rfl
  refine ⟨hcur, hmod, ?_⟩
  intro d
  unfold MultiFilterSortModel.showDive
  rw [hcur, hmod]
  simp only
  split
  · rename_i he
    rw [List.isEmpty_iff.1 he]
    simp
  · rw [List.all_eq_true]

theorem unresolved_override_witness :
    (MultiFilterSortModel.init.startFilterDiveSite sampleData 99).2.curr_dive_site = none ∧
    (MultiFilterSortModel.init.startFilterDiveSite sampleData 99).2.models =
      MultiFilterSortModel.init.models ∧
    ∀ d, ((MultiFilterSortModel.init.startFilterDiveSite sampleData 99).2.showDive
        sampleData.dive_site_table d = true ↔
      ∀ km ∈ MultiFilterSortModel.init.models,
        doFilter km.1 sampleData.dive_site_table km.2 d = true) :=
  unresolved_override sampleData 99 MultiFilterSortModel.init (by decide)

theorem invalidate_fold (f : dive → Bool) (l : List dive) (acc : List dive) (n : Int) :
    l.foldl
      (fun (acc : List dive × Int) d =>
        (acc.1 ++ [filter_dive d (f d)], if f d = true then acc.2 + 1 else acc.2))
      (acc, n) =
    (acc ++ l.map (fun d => filter_dive d (f d)), n + (l.countP f : Nat)) := by
  induction l generalizing acc n with
  | nil => simp
  | cons x xs ih =>
    rw [List.foldl_cons, ih]
    by_cases hx : f x = true
    · simp [hx, List.countP_cons]
      omega
    · simp [hx, List.countP_cons]

theorem myInvalidate_eq (D : DataSet) (c : MultiFilterSortModel) :
    c.myInvalidate D =
      ({ D with dive_table :=
          D.dive_table.map (fun d => filter_dive d (c.showDive D.dive_site_table d)) },
        { c with divesDisplayed :=
          ((D.dive_table.countP (c.showDive D.dive_site_table) : Nat) : Int) }) := by
  unfold MultiFilterSortModel.myInvalidate
  simp only
  have h := invalidate_fold (c.showDive D.dive_site_table) D.dive_table [] 0
  rw [h]
  simp

/-- C15, the tally of the recomputation.  For every data set and coordinator,
`myInvalidate` passes each dive to `filter_dive` with the value of `showDive`
for it, so each dive is marked hidden exactly when `showDive` is false, and
`divesDisplayed` becomes the number of dives of the data set for which
`showDive` is true, between 0 and the number of dives and the same whatever it
was before; `showDive` itself is not changed by the call. -/
theorem myInvalidate_tally (D : DataSet) (c : MultiFilterSortModel) (n : Int) :
    (c.myInvalidate D).1.dive_table =
      D.dive_table.map (fun d => filter_dive d (c.showDive D.dive_site_table d)) ∧
    (c.myInvalidate D).1.dive_table.map (fun d => d.hidden_by_filter) =
      D.dive_table.map (fun d => !c.showDive D.dive_site_table d) ∧
    (c.myInvalidate D).2.divesDisplayed =
      ((D.dive_table.countP (c.showDive D.dive_site_table) : Nat) : Int) ∧
    0 ≤ (c.myInvalidate D).2.divesDisplayed ∧
    (c.myInvalidate D).2.divesDisplayed ≤ (D.dive_table.length : Int) ∧
    (MultiFilterSortModel.myInvalidate D { c with divesDisplayed := n }).2.divesDisplayed =
      (c.myInvalidate D).2.divesDisplayed ∧
    (∀ d, (c.myInvalidate D).2.showDive (c.myInvalidate D).1.dive_site_table d =
      c.showDive D.dive_site_table d) := by
  have hc : (MultiFilterSortModel.myInvalidate D { c with divesDisplayed := n }).2.divesDisplayed
      = ((D.dive_table.countP (c.showDive D.dive_site_table) : Nat) : Int) := by
    rw [myInvalidate_eq]
    rfl
  rw [hc, myInvalidate_eq]
  refine ⟨rfl, ?_, rfl, ?_, ?_, rfl, fun d => rfl⟩
  · simp [filter_dive, Function.comp_def]
  · exact Int.ofNat_nonneg _
  · exact Int.ofNat_le.2 (List.countP_le_length _)

theorem doFilter_clearFilter (k : Kind) (sites : List dive_site) (m : FilterModelBase)
    (d : dive) : doFilter k sites m.clearFilter d = true :=
  doFilter_permissive k sites m.clearFilter d (Or.inl rfl)

theorem clearFilter_models (D : DataSet) (c : MultiFilterSortModel) :
    (c.clearFilter D).2.models = c.models.map (fun km => (km.1, km.2.clearFilter)) ∧
    (c.clearFilter D).2.curr_dive_site = c.curr_dive_site :=
  ⟨rfl, rfl⟩

/-- C16, the coordinator `clearFilter`.  After it the registered filters are
the former ones, each after its own `clearFilter`: every entry unchecked and
`anyChecked` false, names, counts and `negate` unchanged; and when no
dive-site override is set, `showDive` is true for every dive and
`divesDisplayed` is the number of dives of the data set. -/
theorem coordinator_clearFilter (D : DataSet) (c : MultiFilterSortModel) :
    (c.clearFilter D).2.models = c.models.map (fun km => (km.1, km.2.clearFilter)) ∧
    (∀ km ∈ (c.clearFilter D).2.models,
      (∀ it ∈ km.2.items, it.checked = false) ∧ km.2.anyChecked = false) ∧
    (c.clearFilter D).2.models.map
        (fun km => (km.1, km.2.stringList, km.2.items.map (fun it => it.count), km.2.negate)) =
      c.models.map
        (fun km => (km.1, km.2.stringList, km.2.items.map (fun it => it.count), km.2.negate)) ∧
    (c.curr_dive_site = none →
      (∀ d, (c.clearFilter D).2.showDive D.dive_site_table d = true) ∧
      (c.clearFilter D).2.divesDisplayed = (D.dive_table.length : Int)) := by
  obtain ⟨hm, hcur⟩ := clearFilter_models D c
  have hshow : c.curr_dive_site = none →
      ∀ d, MultiFilterSortModel.showDive D.dive_site_table
        { c with models := c.models.map (fun km => (km.1, km.2.clearFilter)) } d = true := by
    intro hnone d
    have h := (showDive_and D.dive_site_table
      { c with models := c.models.map (fun km => (km.1, km.2.clearFilter)) } d hnone).1
    rw [h]
    intro km hkm
    obtain ⟨km0, _, rfl⟩ := List.mem_map.1 hkm
    exact doFilter_clearFilter km0.1 D.dive_site_table km0.2 d
  refine ⟨hm, ?_, ?_, ?_⟩
  · intro km hkm
    rw [hm] at hkm
    obtain ⟨km0, _, rfl⟩ := List.mem_map.1 hkm
    refine ⟨?_, rfl⟩
    intro it hit
    obtain ⟨it0, _, rfl⟩ := List.mem_map.1 hit
    rfl
  · rw [hm, List.map_map]
    apply List.map_congr_left
    intro km _
    simp [FilterModelBase.clearFilter, Function.comp_def]
  · intro hnone
    constructor
    · intro d
      rw [showDive_congr D.dive_site_table
        { c with models := c.models.map (fun km => (km.1, km.2.clearFilter)) }
        (c.clearFilter D).2 d rfl rfl]
      exact hshow hnone d
    · show (MultiFilterSortModel.myInvalidate D
        { c with models := c.models.map (fun km => (km.1, km.2.clearFilter)) }).2.divesDisplayed
          = _
      rw [myInvalidate_eq]
      show ((D.dive_table.countP _ : Nat) : Int) = _
      rw [List.countP_eq_length.2 (fun d _ => hshow hnone d)]

theorem coordinator_clearFilter_witness :
    (MultiFilterSortModel.clearFilter wetsuitData
        (MultiFilterSortModel.init.addFilterModel .Suit wetsuitChecked)).2.models =
      (MultiFilterSortModel.init.addFilterModel .Suit wetsuitChecked).models.map
        (fun km => (km.1, km.2.clearFilter)) ∧
    (∀ km ∈ (MultiFilterSortModel.clearFilter wetsuitData
        (MultiFilterSortModel.init.addFilterModel .Suit wetsuitChecked)).2.models,
      (∀ it ∈ km.2.items, it.checked = false) ∧ km.2.anyChecked = false) ∧
    (MultiFilterSortModel.clearFilter wetsuitData
        (MultiFilterSortModel.init.addFilterModel .Suit wetsuitChecked)).2.models.map
        (fun km => (km.1, km.2.stringList, km.2.items.map (fun it => it.count), km.2.negate)) =
      (MultiFilterSortModel.init.addFilterModel .Suit wetsuitChecked).models.map
        (fun km => (km.1, km.2.stringList, km.2.items.map (fun it => it.count), km.2.negate)) ∧
    ((MultiFilterSortModel.init.addFilterModel .Suit wetsuitChecked).curr_dive_site = none →
      (∀ d, (MultiFilterSortModel.clearFilter wetsuitData
          (MultiFilterSortModel.init.addFilterModel .Suit wetsuitChecked)).2.showDive
          wetsuitData.dive_site_table d = true) ∧
      (MultiFilterSortModel.clearFilter wetsuitData
          (MultiFilterSortModel.init.addFilterModel .Suit wetsuitChecked)).2.divesDisplayed =
        (wetsuitData.dive_table.length : Int)) :=
  coordinator_clearFilter wetsuitData
    (MultiFilterSortModel.init.addFilterModel .Suit wetsuitChecked)

/-! ## The repopulated lists -/

theorem collect_spec (f : dive → QString) (l : List dive) (acc : List QString)
    (hnd : acc.Nodup) :
    (l.foldl
      (fun (list : List QString) d =>
        if (!(f d).isEmpty && !list.contains (f d)) = true then list ++ [f d] else list)
      acc).Nodup ∧
    ∀ x, x ∈ l.foldl
      (fun (list : List QString) d =>
        if (!(f d).isEmpty && !list.contains (f d)) = true then list ++ [f d] else list)
      acc ↔ (x ∈ acc ∨ (x ≠ [] ∧ ∃ d ∈ l, f d = x)) := by
  induction l generalizing acc with
  | nil => simp [hnd]
  | cons y ys ih =>
    rw [List.foldl_cons]
    by_cases hy : (!(f y).isEmpty && !acc.contains (f y)) = true
    · rw [if_pos hy]
      simp only [Bool.and_eq_true, Bool.not_eq_true', List.contains_eq_any_beq,
        List.any_eq_false, beq_iff_eq] at hy
      have hne : f y ≠ [] := by
        intro h0
        rw [h0] at hy
        simp at hy
      have hnotin : f y ∉ acc := fun hmem => hy.2 (f y) hmem rfl
      have hnd2 : (acc ++ [f y]).Nodup := by
        rw [List.nodup_append]
        refine ⟨hnd, List.nodup_singleton _, ?_⟩
        intro a ha hb
        rw [List.mem_singleton] at hb
        exact hnotin (hb ▸ ha)
      obtain ⟨i1, i2⟩ := ih (acc ++ [f y]) hnd2
      refine ⟨i1, ?_⟩
      intro x
      rw [i2 x, List.mem_append, List.mem_singleton]
      constructor
      · rintro ((h | h) | ⟨h1, d, hd, h2⟩)
        · exact Or.inl h
        · exact Or.inr ⟨by rw [h]; exact hne, y, List.mem_cons_self _ _, h.symm⟩
        · exact Or.inr ⟨h1, d, List.mem_cons_of_mem _ hd, h2⟩
      · rintro (h | ⟨h1, d, hd, h2⟩)
        · exact Or.inl (Or.inl h)
        · rcases List.mem_cons.1 hd with hdy | hdys
          · exact Or.inl (Or.inr (by rw [← h2, hdy]))
          · exact Or.inr ⟨h1, d, hdys, h2⟩
    · rw [if_neg hy]
      obtain ⟨i1, i2⟩ := ih acc hnd
      refine ⟨i1, ?_⟩
      intro x
      rw [i2 x]
      constructor
      · rintro (h | ⟨h1, d, hd, h2⟩)
        · exact Or.inl h
        · exact Or.inr ⟨h1, d, List.mem_cons_of_mem _ hd, h2⟩
      · rintro (h | ⟨h1, d, hd, h2⟩)
        · exact Or.inl h
        · rcases List.mem_cons.1 hd with hdy | hdys
          · left
            subst hdy
            by_contra hnot
            apply hy
            simp only [Bool.and_eq_true, Bool.not_eq_true', List.contains_eq_any_beq,
              List.any_eq_false, beq_iff_eq]
            refine ⟨?_, ?_⟩
            · cases hfd : f d with
              | nil => exact absurd (h2 ▸ hfd) h1
              | cons a as => rfl
            · intro z hz hzx
              exact hnot (h2 ▸ hzx ▸ hz)
          · exact Or.inr ⟨h1, d, hdys, h2⟩

theorem qSort_collect (f : dive → QString) (l : List dive) :
    (qSort (l.foldl
      (fun (list : List QString) d =>
        if (!(f d).isEmpty && !list.contains (f d)) = true then list ++ [f d] else list)
      [])).Sorted (· < ·) ∧
    ∀ x, x ∈ qSort (l.foldl
      (fun (list : List QString) d =>
        if (!(f d).isEmpty && !list.contains (f d)) = true then list ++ [f d] else list)
      []) ↔ (x ≠ [] ∧ ∃ d ∈ l, f d = x) := by
  obtain ⟨h1, h2⟩ := collect_spec f l [] List.nodup_nil
  have hperm := List.perm_insertionSort (fun (a b : QString) => a ≤ b)
    (l.foldl
      (fun (list : List QString) d =>
        if (!(f d).isEmpty && !list.contains (f d)) = true then list ++ [f d] else list)
      [])
  have hsorted := List.sorted_insertionSort (fun (a b : QString) => a ≤ b)
    (l.foldl
      (fun (list : List QString) d =>
        if (!(f d).isEmpty && !list.contains (f d)) = true then list ++ [f d] else list)
      [])
  refine ⟨List.Sorted.lt_of_le hsorted (hperm.nodup_iff.2 h1), ?_⟩
  intro x
  unfold qSort
  rw [hperm.mem_iff, h2 x]
  simp

/-- C17, the repopulated entry list of the suit and the location filter.  For
every data set and previous state, after `repopulate` the names are a list of
values followed by one last entry, "No suit set" or "No location set"; the
values are strictly ascending, so each occurs once, and a value is among them
exactly when it is not empty and is the suit (the resolved location) of some
dive. -/
theorem repopulate_names (D : DataSet) (m : FilterModelBase) :
    (∃ vals : List QString,
      (repopulate .Suit D m).stringList = vals ++ ["No suit set".toList] ∧
      vals.Sorted (· < ·) ∧ vals.Nodup ∧
      ∀ x, x ∈ vals ↔ (x ≠ [] ∧ ∃ d ∈ D.dive_table, d.suit = x)) ∧
    (∃ vals : List QString,
      (repopulate .Location D m).stringList = vals ++ ["No location set".toList] ∧
      vals.Sorted (· < ·) ∧ vals.Nodup ∧
      ∀ x, x ∈ vals ↔
        (x ≠ [] ∧ ∃ d ∈ D.dive_table, get_dive_location D.dive_site_table d = x)) := by
  constructor
  · obtain ⟨h1, h2⟩ := qSort_collect (fun d => d.suit) D.dive_table
    exact ⟨_, (updateList_spec _ _ m).1, h1, h1.nodup, h2⟩
  · obtain ⟨h1, h2⟩ := qSort_collect (fun d => get_dive_location D.dive_site_table d)
      D.dive_table
    exact ⟨_, (updateList_spec _ _ m).1, h1, h1.nodup, h2⟩

/-- C18 fails on the code.  For the single dive whose buddy field is "Ann, ",
the split keeps the part made of one blank, which is not empty, and its trimmed
form, the empty name, is listed by `BuddyFilterModel::repopulate` before the
last entry. -/
theorem buddy_empty_name_listed :
    personsParts trailingCommaDive = ["Ann".toList, " ".toList] ∧
    (repopulate .Buddy trailingCommaData FilterModelBase.init).stringList =
      [[], "Ann".toList, "No buddies".toList] ∧
    nameAt (repopulate .Buddy trailingCommaData FilterModelBase.init).stringList 0 = [] := by
  decide

/-- C19 as stated fails.  With an empty global tag list `repopulate` returns
at once, and the tag filter as constructed still has no entries. -/
theorem tag_repopulate_counterexample :
    noTagData.g_tag_list = [] ∧
    (repopulate .Tag noTagData FilterModelBase.init).stringList = [] := by
  decide

theorem count_dives_with_tag_pos (D : DataSet) (x : QString) (hx : x ≠ []) :
    0 < count_dives_with_tag D x ↔ ∃ d ∈ D.dive_table, x ∈ d.tag_list := by
  unfold count_dives_with_tag
  have hemp : x.isEmpty = false := by
    cases x with
    | nil => exact absurd rfl hx
    | cons a as => rfl
  simp only [hemp, Bool.false_eq_true, if_false]
  rw [Int.ofNat_pos, List.countP_pos_iff]
  simp

/-- C19 as amended.  When the global tag list is empty, `repopulate` leaves
the tag filter as it was.  When it is not empty, then for every data set and
previous state the entry list after `repopulate` is not empty, its last entry
is "Empty tags", and the entries before it are in ascending order and are the
names of the global tag list for which `count_dives_with_tag` is positive,
which for a non-empty name means that some dive carries the tag. -/
theorem tag_repopulate_names (D : DataSet) (m : FilterModelBase) :
    (D.g_tag_list = [] → repopulate .Tag D m = m) ∧
    (D.g_tag_list ≠ [] →
      ∃ vals : List QString,
        (repopulate .Tag D m).stringList = vals ++ ["Empty tags".toList] ∧
        (repopulate .Tag D m).stringList ≠ [] ∧
        (repopulate .Tag D m).stringList.getLast? = some "Empty tags".toList ∧
        vals.Sorted (· ≤ ·) ∧
        (∀ x, x ∈ vals ↔ (x ∈ D.g_tag_list ∧ 0 < count_dives_with_tag D x)) ∧
        (∀ x, x ≠ [] →
          (x ∈ vals ↔ (x ∈ D.g_tag_list ∧ ∃ d ∈ D.dive_table, x ∈ d.tag_list)))) := by
  constructor
  · intro h
    show TagFilterModel.repopulate D m = m
    unfold TagFilterModel.repopulate
    rw [if_pos h]
  · intro h
    have hnames : (repopulate .Tag D m).stringList =
        qSort (D.g_tag_list.filter (fun name => count_dives_with_tag D name > 0)) ++
          ["Empty tags".toList] := by
      show (TagFilterModel.repopulate D m).stringList = _
      unfold TagFilterModel.repopulate
      rw [if_neg h]
      exact (updateList_spec _ _ m).1
    have hperm := List.perm_insertionSort (fun (a b : QString) => a ≤ b)
      (D.g_tag_list.filter (fun name => count_dives_with_tag D name > 0))
    have hmem : ∀ x, x ∈ qSort (D.g_tag_list.filter
        (fun name => count_dives_with_tag D name > 0)) ↔
        (x ∈ D.g_tag_list ∧ 0 < count_dives_with_tag D x) := by
      intro x
      unfold qSort
      rw [hperm.mem_iff, List.mem_filter]
      simp
    refine ⟨_, hnames, ?_, ?_, List.sorted_insertionSort _ _, hmem, ?_⟩
    · rw [hnames]
      simp
    · rw [hnames]
      exact List.getLast?_concat _
    · intro x hne
      rw [hmem x, count_dives_with_tag_pos D x hne]

theorem tag_repopulate_names_witness :
    (sampleData.g_tag_list = [] →
      repopulate .Tag sampleData FilterModelBase.init = FilterModelBase.init) ∧
    (sampleData.g_tag_list ≠ [] →
      ∃ vals : List QString,
        (repopulate .Tag sampleData FilterModelBase.init).stringList =
          vals ++ ["Empty tags".toList] ∧
        (repopulate .Tag sampleData FilterModelBase.init).stringList ≠ [] ∧
        (repopulate .Tag sampleData FilterModelBase.init).stringList.getLast? =
          some "Empty tags".toList ∧
        vals.Sorted (· ≤ ·) ∧
        (∀ x, x ∈ vals ↔ (x ∈ sampleData.g_tag_list ∧ 0 < count_dives_with_tag sampleData x)) ∧
        (∀ x, x ≠ [] →
          (x ∈ vals ↔
            (x ∈ sampleData.g_tag_list ∧ ∃ d ∈ sampleData.dive_table, x ∈ d.tag_list)))) :=
  tag_repopulate_names sampleData FilterModelBase.init

/-! ## The last entry across updateList -/

/-- C20, sentinel carry-over.  For a filter whose names and items are in step
and a non-empty new list, the last entry after `updateList` is checked exactly
when the previous list was not empty and its last entry was checked, whatever
the names in either list and the flags of the other entries; when the previous
list was empty the new last entry is unchecked. -/
theorem sentinel_carry_over (countDives : QString → Int) (newList : List QString)
    (m : FilterModelBase) (hs : InStep m) (hL : newList ≠ []) :
    ∃ s, (m.updateList countDives newList).items.getLast? = some s ∧
      (m.stringList ≠ [] →
        (s.checked = true ↔ ∃ o, m.items.getLast? = some o ∧ o.checked = true)) ∧
      (m.stringList = [] → s.checked = false) := by
  obtain ⟨_, _, u3, u4, _, _⟩ := updateList_spec countDives newList m
  have hpos : 0 < newList.length := List.length_pos.2 hL
  have hne : (m.updateList countDives newList).items ≠ [] := by
    intro hnil
    rw [hnil] at u3
    simp at u3
    omega
  have hlast := u4 (newList.length - 1)
  refine ⟨_, getLast_eq_itemAt _ hne, ?_, ?_⟩
  · intro hold
    have hitems : m.items ≠ [] := by
      intro hnil
      apply hold
      apply List.length_eq_zero.1
      rw [← hs, hnil]
      rfl
    rw [u3, hlast, getLast_eq_itemAt m.items hitems]
    constructor
    · rintro (⟨i, _, _, _, h4⟩ | ⟨_, _, h3⟩)
      · omega
      · exact ⟨_, rfl, h3⟩
    · rintro ⟨o, ho, hc⟩
      right
      refine ⟨by omega, hitems, ?_⟩
      rw [Option.some.injEq] at ho
      rw [ho]
      exact hc
  · intro hold
    have hitems : m.items = [] := by
      apply List.length_eq_zero.1
      rw [hs, hold]
      rfl
    rw [u3]
    cases hcv : (itemAt (m.updateList countDives newList).items (newList.length - 1)).checked with
    | false => rfl
    | true =>
      rcases hlast.1 hcv with ⟨i, _, _, _, h4⟩ | ⟨_, h2, _⟩
      · omega
      · exact absurd hitems h2

theorem sentinel_carry_over_witness :
    ∃ s, ((wetsuitChecked.selectAll).updateList (count_dives_with_suit wetsuitData)
        ["Drysuit".toList, "No suit set".toList]).items.getLast? = some s ∧
      ((wetsuitChecked.selectAll).stringList ≠ [] →
        (s.checked = true ↔
          ∃ o, (wetsuitChecked.selectAll).items.getLast? = some o ∧ o.checked = true)) ∧
      ((wetsuitChecked.selectAll).stringList = [] → s.checked = false) :=
  sentinel_carry_over (count_dives_with_suit wetsuitData)
    ["Drysuit".toList, "No suit set".toList] wetsuitChecked.selectAll rfl (by decide)

/-! ## Names and items in step -/

theorem reefChecked_reachable : Reachable .Location reefChecked :=
  Reachable.step (.setData 0 true CheckStateRole) _ _
    (Reachable.step (.repopulate sampleData) _ _ Reachable.init rfl) (by decide)

/-- C23, names and items stay in step.  In every state that a category filter
reaches, there are as many items as names, so when `rowCount()` is positive
the index `rowCount() - 1` and every index below it are in the range of
`items`. -/
theorem names_items_in_step (k : Kind) (m : FilterModelBase) (hr : Reachable k m) :
    m.items.length = m.rowCount ∧
    (0 < m.rowCount →
      m.rowCount - 1 < m.items.length ∧ ∀ i, i < m.rowCount - 1 → i < m.items.length) := by
  have hs : m.items.length = m.stringList.length := (consistent_of_reachable k m hr).1
  unfold FilterModelBase.rowCount
  refine ⟨hs, ?_⟩
  intro hpos
  constructor
  · omega
  · intro i hi
    omega

theorem names_items_in_step_witness :
    (LocationFilterModel.addName "Cave".toList reefChecked).items.length =
      (LocationFilterModel.addName "Cave".toList reefChecked).rowCount ∧
    (0 < (LocationFilterModel.addName "Cave".toList reefChecked).rowCount →
      (LocationFilterModel.addName "Cave".toList reefChecked).rowCount - 1 <
        (LocationFilterModel.addName "Cave".toList reefChecked).items.length ∧
      ∀ i, i < (LocationFilterModel.addName "Cave".toList reefChecked).rowCount - 1 →
        i < (LocationFilterModel.addName "Cave".toList reefChecked).items.length) :=
  names_items_in_step .Location (LocationFilterModel.addName "Cave".toList reefChecked)
    (Reachable.step (.addName "Cave".toList) _ _ reefChecked_reachable rfl)

/-! ## Select all -/

theorem checked_map_true (items : List Item) (i : Nat) (h : i < items.length) :
    (itemAt (items.map (fun it => { it with checked := true })) i).checked = true := by
  rw [itemAt_of_lt _ i (by simpa using h)]
  simp

theorem mem_nameAt_append (vals : List QString) (s x : QString) (hx : x ∈ vals) :
    ∃ i, i < vals.length ∧ nameAt (vals ++ [s]) i = x := by
  obtain ⟨i, hi, rfl⟩ := List.getElem_of_mem hx
  refine ⟨i, hi, ?_⟩
  rw [nameAt_of_lt _ i (by simp; omega)]
  simp [List.getElem_append_left, hi]

theorem repopulate_single_names (k : Kind) (D : DataSet) (m0 : FilterModelBase)
    (hk : k = .Suit ∨ k = .Location) :
    ∃ (vals : List QString) (s : QString),
      (repopulate k D m0).stringList = vals ++ [s] ∧ vals.Nodup ∧
      ∀ d ∈ D.dive_table, ∀ v, singleValue k D.dive_site_table d = some v → v ≠ [] →
        v ∈ vals := by
  rcases hk with rfl | rfl
  · obtain ⟨h1, h2⟩ := qSort_collect (fun d => d.suit) D.dive_table
    refine ⟨_, _, (updateList_spec _ _ m0).1, h1.nodup, ?_⟩
    intro d hd v hv hne
    simp only [singleValue, Option.some.injEq] at hv
    exact (h2 v).2 ⟨hne, d, hd, hv⟩
  · obtain ⟨h1, h2⟩ := qSort_collect (fun d => get_dive_location D.dive_site_table d)
      D.dive_table
    refine ⟨_, _, (updateList_spec _ _ m0).1, h1.nodup, ?_⟩
    intro d hd v hv hne
    simp only [singleValue, Option.some.injEq] at hv
    exact (h2 v).2 ⟨hne, d, hd, hv⟩

theorem repopulate_inStep (k : Kind) (D : DataSet) (m0 : FilterModelBase)
    (hk : k = .Suit ∨ k = .Location) : InStep (repopulate k D m0) := by
  rcases hk with rfl | rfl
  · exact (consistent_updateList _ _ m0).1
  · exact (consistent_updateList _ _ m0).1

theorem doFilter_selectAll (k : Kind) (hk : k = .Suit ∨ k = .Location) (D : DataSet)
    (m0 : FilterModelBase) (d : dive) (hd : d ∈ D.dive_table) (b : Bool)
    (hb : ((repopulate k D m0).selectAll.setNegate b).negate = false) :
    doFilter k D.dive_site_table ((repopulate k D m0).selectAll.setNegate b) d = true := by
  obtain ⟨vals, s, hnames, _, hmem⟩ := repopulate_single_names k D m0 hk
  have hstep : (repopulate k D m0).items.length = (repopulate k D m0).stringList.length :=
    repopulate_inStep k D m0 hk
  have ha : ((repopulate k D m0).selectAll.setNegate b).anyChecked = true := rfl
  have hn : ((repopulate k D m0).selectAll.setNegate b).stringList = vals ++ [s] := hnames
  have hne : ((repopulate k D m0).selectAll.setNegate b).stringList ≠ [] := by
    rw [hn]
    simp
  have hitems : ((repopulate k D m0).selectAll.setNegate b).items =
      (repopulate k D m0).items.map (fun it => { it with checked := true }) := rfl
  have hlen : (repopulate k D m0).items.length = vals.length + 1 := by
    rw [hstep, hnames]
    simp
  have hv : ∃ v, singleValue k D.dive_site_table d = some v := by
    rcases hk with rfl | rfl
    · exact ⟨_, rfl⟩
    · exact ⟨_, rfl⟩
  obtain ⟨v, hv⟩ := hv
  by_cases hemp : v = []
  · have hno : hasNoValue k D.dive_site_table d = true := by
      rcases hk with rfl | rfl
      · simp only [singleValue, Option.some.injEq] at hv
        simp [hasNoValue, hv, hemp]
      · simp only [singleValue, Option.some.injEq] at hv
        simp [hasNoValue, hv, hemp]
    rw [doFilter_no_value k _ _ d ha hne hno, hb, hitems]
    rw [checked_map_true _ _ (by
      unfold FilterModelBase.rowCount
      rw [hn, hlen]
      simp)]
    rfl
  · rw [doFilter_single k _ _ d v ha hne hv hemp]
    have hcn : CheckedNamed ((repopulate k D m0).selectAll.setNegate b) v := by
      obtain ⟨i, hi, hi2⟩ := mem_nameAt_append vals s v (hmem d hd v hv hemp)
      refine ⟨i, ?_, ?_, ?_⟩
      · rw [hn]
        simp
        omega
      · rw [hitems]
        exact checked_map_true _ i (by omega)
      · rw [hn]
        exact hi2
    rw [if_pos ((any_iff_checkedNamed _ v).2 hcn), hb]
    rfl

/-- C24, select-all shows the whole data set.  For the suit and the location
filter, every data set and every previous state, after `repopulate` on the
data set and `selectAll`, with `negate` false (set so, or false before),
`doFilter` is true for every dive of the data set, with a value or without. -/
theorem selectAll_shows_all (k : Kind) (hk : k = .Suit ∨ k = .Location) (D : DataSet)
    (m0 : FilterModelBase) (d : dive) (hd : d ∈ D.dive_table) :
    doFilter k D.dive_site_table ((repopulate k D m0).selectAll.setNegate false) d = true ∧
    (m0.negate = false →
      doFilter k D.dive_site_table (repopulate k D m0).selectAll d = true) := by
  refine ⟨doFilter_selectAll k hk D m0 d hd false rfl, ?_⟩
  intro hneg
  have hn : (repopulate k D m0).negate = false := by
    rcases hk with rfl | rfl
    · rw [← hneg]
      exact (updateList_spec _ _ m0).2.1
    · rw [← hneg]
      exact (updateList_spec _ _ m0).2.1
  have h := doFilter_selectAll k hk D m0 d hd false rfl
  have e : (repopulate k D m0).selectAll.setNegate false = (repopulate k D m0).selectAll := by
    apply filterModelBase_ext
    · rfl
    · rfl
    · rfl
    · exact hn.symm
  rw [e] at h
  exact h

theorem selectAll_shows_all_witness :
    doFilter .Location sampleData.dive_site_table
      ((repopulate .Location sampleData FilterModelBase.init).selectAll.setNegate false)
      bareDive = true ∧
    (FilterModelBase.init.negate = false →
      doFilter .Location sampleData.dive_site_table
        (repopulate .Location sampleData FilterModelBase.init).selectAll bareDive = true) :=
  selectAll_shows_all .Location (Or.inr rfl) sampleData FilterModelBase.init bareDive
    (by decide)

/-! ## Renaming and adding locations -/

theorem nameAt_set (l : List QString) (i j : Nat) (x : QString) :
    nameAt (l.set i x) j = if i = j ∧ i < l.length then x else nameAt l j := by
  unfold nameAt
  by_cases hij : i = j
  · subst hij
    by_cases hlt : i < l.length
    · simp [List.getD, List.getElem?_set_self, hlt]
    · have hle : l.length ≤ i := Nat.le_of_not_lt hlt
      simp [List.getD, List.getElem?_eq_none, hle, hlt]
  · simp [List.getD, List.getElem?_set_ne hij, hij]

theorem mem_of_firstIdx (l : List QString) (x : QString) (i : Nat)
    (h : firstIdx x l = some i) : x ∈ l := by
  obtain ⟨h1, h2, _⟩ := firstIdx_some x l i h
  rw [nameAt_of_lt l i h1] at h2
  rw [← h2]
  exact List.get_mem _ _ _

theorem indexOf_of_mem_append (vals : List QString) (s x : QString) (hx : x ∈ vals) :
    ∃ j : Nat, j < vals.length ∧ indexOf (vals ++ [s]) x = (j : Int) := by
  obtain ⟨i, hi, hname⟩ := mem_nameAt_append vals s x hx
  obtain ⟨j, hji, hf⟩ := firstIdx_of_nameAt (vals ++ [s]) i (by simp; omega)
  rw [hname] at hf
  exact ⟨j, by omega, (indexOf_eq_coe _ x j).2 hf⟩

/-- After `updateList` with a list whose entries before the last are distinct
and hold `N`, the one entry named `N` before the last is checked exactly when
the previous state had a checked item, not the last, under the name `N`. -/
theorem updateList_entry (countDives : QString → Int) (vals : List QString) (s N : QString)
    (m : FilterModelBase) (hnd : vals.Nodup) (hN : N ∈ vals) :
    ∃ j, j + 1 < (m.updateList countDives (vals ++ [s])).stringList.length ∧
      nameAt (m.updateList countDives (vals ++ [s])).stringList j = N ∧
      (∀ j2, j2 + 1 < (m.updateList countDives (vals ++ [s])).stringList.length →
        nameAt (m.updateList countDives (vals ++ [s])).stringList j2 = N → j2 = j) ∧
      ((itemAt (m.updateList countDives (vals ++ [s])).items j).checked = true ↔
        ∃ i, i + 1 < m.items.length ∧ (itemAt m.items i).checked = true ∧
          nameAt m.stringList i = N) := by
  obtain ⟨u1, _, _, u4, _, _⟩ := updateList_spec countDives (vals ++ [s]) m
  obtain ⟨j, hj, hidx⟩ := indexOf_of_mem_append vals s N hN
  have hlen : (vals ++ [s]).length = vals.length + 1 := by simp
  have hdl : (vals ++ [s]).dropLast.Nodup := by
    rw [List.dropLast_concat]
    exact hnd
  have hname := (firstIdx_some N _ j ((indexOf_eq_coe _ N j).1 hidx)).2.1
  rw [u1]
  refine ⟨j, by omega, hname, ?_, ?_⟩
  · intro j2 hj2 hn2
    have h := indexOf_nameAt_of_nodup (vals ++ [s]) j2 hj2 hdl
    rw [hn2, hidx] at h
    omega
  · rw [u4 j, ← restored_iff_named m (vals ++ [s]) N j hidx (by omega)]
    constructor
    · rintro (h | ⟨h1, _⟩)
      · exact h
      · omega
    · exact Or.inl

theorem location_names (D : DataSet) (m0 : FilterModelBase) :
    ∃ vals : List QString,
      (∀ m, (repopulate .Location D m).stringList = vals ++ ["No location set".toList]) ∧
      (repopulate .Location D m0) = m0.updateList (count_dives_with_location D)
        (vals ++ ["No location set".toList]) ∧
      vals.Nodup ∧
      ∀ x, x ∈ vals ↔
        (x ≠ [] ∧ ∃ d ∈ D.dive_table, get_dive_location D.dive_site_table d = x) := by
  obtain ⟨h1, h2⟩ := qSort_collect (fun d => get_dive_location D.dive_site_table d)
    D.dive_table
  exact ⟨_, fun m => (updateList_spec _ _ m).1, rfl, h1.nodup, h2⟩

theorem addName_unchanged (N : QString) (m : FilterModelBase)
    (h : m.anyChecked = false ∨ N = [] ∨ N ∈ m.stringList) :
    LocationFilterModel.addName N m = m := by
  unfold LocationFilterModel.addName
  have hc : (!m.anyChecked || N.isEmpty || decide (0 ≤ indexOf m.stringList N)) = true := by
    rcases h with h | h | h
    · simp [h]
    · simp [h]
    · obtain ⟨i, hi, rfl⟩ := List.getElem_of_mem h
      obtain ⟨j, _, hf⟩ := firstIdx_of_nameAt m.stringList i hi
      rw [nameAt_of_lt m.stringList i hi] at hf
      have hidx := (indexOf_eq_coe _ _ j).2 hf
      simp only [List.get_eq_getElem] at hidx
      simp [hidx]
  rw [if_pos hc]

theorem addName_added (N : QString) (m : FilterModelBase) (ha : m.anyChecked = true)
    (hN : N ≠ []) (hnot : N ∉ m.stringList) :
    LocationFilterModel.addName N m =
      { m with stringList := N :: m.stringList, items := ⟨true, 0⟩ :: m.items } := by
  unfold LocationFilterModel.addName
  have hemp : N.isEmpty = false := by
    cases N with
    | nil => exact absurd rfl hN
    | cons a as => rfl
  have hidx : ¬ 0 ≤ indexOf m.stringList N := by
    intro h0
    exact hnot (mem_of_firstIdx _ _ _ (indexOf_nonneg _ _ h0))
  have hc : ¬ ((!m.anyChecked || N.isEmpty || decide (0 ≤ indexOf m.stringList N)) = true) := by
    simp [ha, hemp, hidx]
  rw [if_neg hc]

/-- What holds of `addName` on the code: on a state with `anyChecked` true and
at least one entry, a new non-empty name is checked after the next
`repopulate` on a data set that has it as a location. -/
theorem addName_registers (N : QString) (m : FilterModelBase) (D : DataSet)
    (ha : m.anyChecked = true) (hitems : m.items ≠ []) (hN : N ≠ [])
    (hnot : N ∉ m.stringList)
    (hocc : ∃ d ∈ D.dive_table, get_dive_location D.dive_site_table d = N) :
    ∃ j, j + 1 < (repopulate .Location D (LocationFilterModel.addName N m)).stringList.length ∧
      nameAt (repopulate .Location D (LocationFilterModel.addName N m)).stringList j = N ∧
      (itemAt (repopulate .Location D (LocationFilterModel.addName N m)).items j).checked
        = true := by
  obtain ⟨vals, _, hrep, hnd, hmem⟩ := location_names D (LocationFilterModel.addName N m)
  have hNv : N ∈ vals := (hmem N).2 ⟨hN, hocc⟩
  obtain ⟨j, h1, h2, _, h4⟩ := updateList_entry (count_dives_with_location D) vals
    "No location set".toList N (LocationFilterModel.addName N m) hnd hNv
  rw [hrep]
  refine ⟨j, h1, h2, h4.2 ?_⟩
  rw [addName_added N m ha hN hnot]
  have hpos : 0 < m.items.length := List.length_pos.2 hitems
  refine ⟨0, ?_, rfl, rfl⟩
  simp only [List.length_cons]
  omega

/-- C22 fails on the code.  On the location filter as constructed, `selectAll`
leaves `anyChecked` true without entries; `addName` then adds "Reef" as the only
entry, and the next `repopulate`, on a data set with the location "Reef", takes
that entry for the old last entry: "Reef" is listed unchecked and the new last
entry is checked. -/
theorem addName_after_selectAll :
    Reachable .Location FilterModelBase.init.selectAll ∧
    FilterModelBase.init.selectAll.anyChecked = true ∧
    "Reef".toList ∉ FilterModelBase.init.selectAll.stringList ∧
    (∃ d ∈ sampleData.dive_table,
      get_dive_location sampleData.dive_site_table d = "Reef".toList) ∧
    (repopulate .Location sampleData
      (LocationFilterModel.addName "Reef".toList FilterModelBase.init.selectAll)).stringList =
      ["Reef".toList, "Wreck".toList, "No location set".toList] ∧
    (repopulate .Location sampleData
      (LocationFilterModel.addName "Reef".toList FilterModelBase.init.selectAll)).items =
      [⟨false, 1⟩, ⟨false, 1⟩, ⟨true, 1⟩] :=
  ⟨Reachable.step .selectAll _ _ Reachable.init rfl, rfl, by decide,
    ⟨reefDive, by decide, by decide⟩, by decide, by decide⟩

theorem changeName_eq (oldName newName : QString) (m : FilterModelBase) (i0 : Nat)
    (ho : oldName ≠ []) (hn : newName ≠ []) (hne : oldName ≠ newName)
    (hidx : indexOf m.stringList oldName = (i0 : Int)) :
    LocationFilterModel.changeName oldName newName m =
      { m with
        stringList := m.stringList.set i0 newName
        items :=
          if 0 ≤ indexOf m.stringList newName ∧ (itemAt m.items i0).checked = true then
            setChecked m.items (indexOf m.stringList newName).toNat true
          else m.items } := by
  unfold LocationFilterModel.changeName
  have h1 : oldName.isEmpty = false := by
    cases oldName with
    | nil => exact absurd rfl ho
    | cons a as => rfl
  have h2 : newName.isEmpty = false := by
    cases newName with
    | nil => exact absurd rfl hn
    | cons a as => rfl
  have hc : ¬ ((oldName.isEmpty || newName.isEmpty || oldName == newName) = true) := by
    simp [h1, h2, hne]
  have hlt : ¬ indexOf m.stringList oldName < 0 := by
    rw [hidx]
    omega
  rw [if_neg hc, if_neg hlt]
  simp only [hidx, Int.toNat_ofNat]

/-- The items under the name `newName` after `changeName`: a checked item
before the last carries it exactly when, before the call, a checked item before
the last carried the old or the new name. -/
theorem changeName_named (oldName newName : QString) (m : FilterModelBase)
    (hs : InStep m) (hnd : m.stringList.dropLast.Nodup)
    (ho : oldName ≠ []) (hn : newName ≠ []) (hne : oldName ≠ newName)
    (hold : ∃ i, i + 1 < m.stringList.length ∧ nameAt m.stringList i = oldName) :
    (∃ i, i + 1 < (LocationFilterModel.changeName oldName newName m).items.length ∧
      (itemAt (LocationFilterModel.changeName oldName newName m).items i).checked = true ∧
      nameAt (LocationFilterModel.changeName oldName newName m).stringList i = newName) ↔
    (CheckedNamed m oldName ∨ CheckedNamed m newName) := by
  obtain ⟨i0, hi0, hname0⟩ := hold
  have hidx : indexOf m.stringList oldName = (i0 : Int) := by
    rw [← hname0]
    exact indexOf_nameAt_of_nodup m.stringList i0 hi0 hnd
  rw [changeName_eq oldName newName m i0 ho hn hne hidx]
  simp only
  have hlen : (if 0 ≤ indexOf m.stringList newName ∧ (itemAt m.items i0).checked = true then
      setChecked m.items (indexOf m.stringList newName).toNat true
      else m.items).length = m.stringList.length := by
    split
    · rw [length_setChecked]
      exact hs
    · exact hs
  have hmono : ∀ i, (itemAt m.items i).checked = true →
      (itemAt (if 0 ≤ indexOf m.stringList newName ∧ (itemAt m.items i0).checked = true then
        setChecked m.items (indexOf m.stringList newName).toNat true
        else m.items) i).checked = true := by
    intro i hc
    split
    · rw [checked_setChecked]
      split
      · rfl
      · exact hc
    · exact hc
  have hback : ∀ i, (itemAt (if 0 ≤ indexOf m.stringList newName ∧
        (itemAt m.items i0).checked = true then
        setChecked m.items (indexOf m.stringList newName).toNat true
        else m.items) i).checked = true →
      (itemAt m.items i).checked = true ∨ (itemAt m.items i0).checked = true := by
    intro i hc
    split at hc
    · rename_i hcond
      exact Or.inr hcond.2
    · exact Or.inl hc
  rw [hlen]
  constructor
  · rintro ⟨i, hi, hc, hnm⟩
    rw [nameAt_set] at hnm
    by_cases hii : i0 = i
    · subst hii
      rcases hback i0 hc with h | h
      · exact Or.inl ⟨i0, hi0, h, hname0⟩
      · exact Or.inl ⟨i0, hi0, h, hname0⟩
    · rw [if_neg (fun h => hii h.1)] at hnm
      rcases hback i hc with h | h
      · exact Or.inr ⟨i, hi, h, hnm⟩
      · exact Or.inl ⟨i0, hi0, h, hname0⟩
  · rintro (⟨i1, hi1, hc1, hn1⟩ | ⟨i1, hi1, hc1, hn1⟩)
    · have hidx1 := indexOf_nameAt_of_nodup m.stringList i1 hi1 hnd
      rw [hn1, hidx] at hidx1
      have hi : i0 = i1 := by omega
      subst hi
      refine ⟨i0, hi0, hmono i0 hc1, ?_⟩
      rw [nameAt_set, if_pos ⟨rfl, by omega⟩]
    · have hii : i0 ≠ i1 := by
        intro h
        subst h
        rw [hname0] at hn1
        exact hne hn1
      refine ⟨i1, hi1, hmono i1 hc1, ?_⟩
      rw [nameAt_set, if_neg (fun h => hii h.1)]
      exact hn1

/-- C21, location rename preserves and merges the checked state.  For a
location filter whose names are those a `repopulate` produces and whose items
are in step with them, and for distinct non-empty names `oldName` and
`newName`, where `oldName` is an entry before the last: after `changeName`
followed by `repopulate` on a data set in which `newName` occurs as a
location, there is exactly one entry `newName` before the last, and it is
checked exactly when, before the rename, the entry `oldName` was checked or an
entry `newName` before the last existed and was checked. -/
theorem rename_merges_checked (D0 D1 : DataSet) (m0 m : FilterModelBase)
    (oldName newName : QString)
    (hnames : m.stringList = (repopulate .Location D0 m0).stringList) (hs : InStep m)
    (ho : oldName ≠ []) (hn : newName ≠ []) (hne : oldName ≠ newName)
    (hold : ∃ i, i + 1 < m.stringList.length ∧ nameAt m.stringList i = oldName)
    (hocc : ∃ d ∈ D1.dive_table, get_dive_location D1.dive_site_table d = newName) :
    ∃ j,
      j + 1 < (repopulate .Location D1
        (LocationFilterModel.changeName oldName newName m)).stringList.length ∧
      nameAt (repopulate .Location D1
        (LocationFilterModel.changeName oldName newName m)).stringList j = newName ∧
      (∀ j2,
        j2 + 1 < (repopulate .Location D1
          (LocationFilterModel.changeName oldName newName m)).stringList.length →
        nameAt (repopulate .Location D1
          (LocationFilterModel.changeName oldName newName m)).stringList j2 = newName →
        j2 = j) ∧
      ((itemAt (repopulate .Location D1
          (LocationFilterModel.changeName oldName newName m)).items j).checked = true ↔
        (CheckedNamed m oldName ∨ CheckedNamed m newName)) := by
  obtain ⟨vals0, hn0, _, hnd0, _⟩ := location_names D0 m0
  have hnd : m.stringList.dropLast.Nodup := by
    rw [hnames, hn0 m0, List.dropLast_concat]
    exact hnd0
  obtain ⟨vals, _, hrep, hndv, hmem⟩ :=
    location_names D1 (LocationFilterModel.changeName oldName newName m)
  have hNv : newName ∈ vals := (hmem newName).2 ⟨hn, hocc⟩
  obtain ⟨j, h1, h2, h3, h4⟩ := updateList_entry (count_dives_with_location D1) vals
    "No location set".toList newName (LocationFilterModel.changeName oldName newName m)
    hndv hNv
  rw [hrep]
  refine ⟨j, h1, h2, h3, ?_⟩
  rw [h4]
  exact changeName_named oldName newName m hs hnd ho hn hne hold

theorem rename_merges_checked_witness :
    ∃ j,
      j + 1 < (repopulate .Location sampleData
        (LocationFilterModel.changeName "Reef".toList "Wreck".toList
          reefChecked)).stringList.length ∧
      nameAt (repopulate .Location sampleData
        (LocationFilterModel.changeName "Reef".toList "Wreck".toList
          reefChecked)).stringList j = "Wreck".toList ∧
      (∀ j2,
        j2 + 1 < (repopulate .Location sampleData
          (LocationFilterModel.changeName "Reef".toList "Wreck".toList
            reefChecked)).stringList.length →
        nameAt (repopulate .Location sampleData
          (LocationFilterModel.changeName "Reef".toList "Wreck".toList
            reefChecked)).stringList j2 = "Wreck".toList →
        j2 = j) ∧
      ((itemAt (repopulate .Location sampleData
          (LocationFilterModel.changeName "Reef".toList "Wreck".toList
            reefChecked)).items j).checked = true ↔
        (CheckedNamed reefChecked "Reef".toList ∨ CheckedNamed reefChecked "Wreck".toList)) :=
  rename_merges_checked sampleData sampleData FilterModelBase.init reefChecked
    "Reef".toList "Wreck".toList (by decide) rfl (by decide) (by decide) (by decide)
    ⟨0, by decide, by decide⟩ ⟨wreckDive, by decide, by decide⟩

end Subsurface
